import Mathlib

/-!
Verification of the photo-report filler (`main.py`).

The program parses a line-oriented text report into `Entry` records
(`LINE_RE` / `parse_txt`), resolves a worksheet per category
(`SHEET_ALIASES` / `pick_sheet_for_kind`), builds per-sheet indices
(`build_q_header_map` / `build_row_map`), clears stale rows
(`clear_non_location_rows`) and writes colour-coded counts
(`color_fill_for_count` / `write_one`) under the orchestration of `process`.

Strings are modelled as `List Char` (ASCII); the concrete regular
expressions of the source are hand-compiled into executable matchers that
reproduce the backtracking behaviour of Python's `re` engine on them.
-/

namespace PhotoReport

/-! ### Character classes (ASCII model of Python's `\s`, `\d`, `\w`, case folding) -/

def isSpaceC (c : Char) : Bool :=
  c = ' ' || c = '\t' || c = '\n' || c = '\r' || c = '\x0b' || c = '\x0c'

def isDigitC (c : Char) : Bool := '0' ≤ c && c ≤ '9'

def isAlphaC (c : Char) : Bool := ('a' ≤ c && c ≤ 'z') || ('A' ≤ c && c ≤ 'Z')

def isWordC (c : Char) : Bool := isAlphaC c || isDigitC c || c = '_'

/-- ASCII lower-casing, as applied by `re.IGNORECASE` to the patterns here. -/
def lowerC (c : Char) : Char :=
  if 'A' ≤ c && c ≤ 'Z' then Char.ofNat (c.toNat + 32) else c

/-- ASCII upper-casing (`str.upper` on a single letter). -/
def upperC (c : Char) : Char :=
  if 'a' ≤ c && c ≤ 'z' then Char.ofNat (c.toNat - 32) else c

def lowerL (l : List Char) : List Char := l.map lowerC

/-- `int(...)` on a run of digit characters. -/
def natOfDigits (l : List Char) : Nat :=
  l.foldl (fun a c => 10 * a + (c.toNat - 48)) 0

/-! ### Splitting primitives used by the hand-compiled matchers -/

/-- Split off the maximal prefix whose characters satisfy `p`. -/
def spanC (p : Char → Bool) : List Char → List Char × List Char
  | [] => ([], [])
  | c :: cs =>
    if p c then
      let r := spanC p cs
      (c :: r.1, r.2)
    else ([], c :: cs)

/-- Drop the maximal whitespace prefix (greedy `\s*`; deterministic because
every use site is followed by a non-whitespace requirement). -/
def dropSpaces (l : List Char) : List Char := (spanC isSpaceC l).2

/-- Greedy `\s+` (deterministic at its use sites). -/
def takeSpaces1 (l : List Char) : Option (List Char) :=
  match spanC isSpaceC l with
  | ([], _) => none
  | (_ :: _, r) => some r

/-- Greedy `\d+`, returning the digit run. -/
def takeDigits1 (l : List Char) : Option (List Char × List Char) :=
  match spanC isDigitC l with
  | ([], _) => none
  | (d, r) => some (d, r)

/-- Case-insensitive literal (pattern given pre-lowered). -/
def takeLitCI : List Char → List Char → Option (List Char)
  | [], l => some l
  | _ :: _, [] => none
  | p :: ps, c :: cs => if lowerC c = p then takeLitCI ps cs else none

/-- Match one `/`. -/
def takeChar (x : Char) : List Char → Option (List Char)
  | [] => none
  | c :: cs => if c = x then some cs else none

/-- `\b` when the previous character is known to be a word character:
the next character must be absent or not a word character. -/
def boundaryB : List Char → Bool
  | [] => true
  | c :: _ => !isWordC c

/-- Word-character status of the head of the remaining input (`false` at the
end of the input), for general `\b` tests. -/
def isWordHead : List Char → Bool
  | [] => false
  | c :: _ => isWordC c

/-- General `\b` between a known previous character and the rest. -/
def boundaryAt (pc : Char) (l : List Char) : Bool := isWordC pc != isWordHead l

/-! ### Data model of a parsed report line (`Entry`) -/

inductive Side : Type
  | north | south | east | west
deriving DecidableEq, Repr

/-- A parsed report record (dataclass `Entry` in the source; `side` is stored
capitalised there, modelled by the enumeration). -/
structure Entry : Type where
  block : Char
  level : Nat
  side : Side
  qnum : Nat
  count : Nat
  kind : String
deriving DecidableEq, Repr

/-! ### The report-line matcher (`LINE_RE`, applied by `parse_txt`)

```
^\s*(?P<count>\d+)\s+pictures\s*-\s*
Block\s+(?P<block>[A-Z])\s+
L(?P<level>\d{1,2})\s+
(?P<side>North|South|East|West)\s+
(?P<kind>BW|SR)\b
.*?/\s*(?P<qnum>\d+)\b
```
compiled with `re.IGNORECASE | re.VERBOSE` and applied with `.search`;
the leading `^` restricts the search to the start of the line.
Every quantifier except the final `.*?` is deterministic here because each
is followed by a disjoint character class, so the pipeline below consumes
maximal runs; `.*?/\s*(\d+)\b` is the scan `findSlashQnum`. -/

/-- `(?P<side>North|South|East|West)`, alternatives tried in this order
(their first letters are distinct, so the choice is deterministic). -/
def takeSideLine (l : List Char) : Option (Side × List Char) :=
  match takeLitCI "north".data l with
  | some r => some (Side.north, r)
  | none =>
  match takeLitCI "south".data l with
  | some r => some (Side.south, r)
  | none =>
  match takeLitCI "east".data l with
  | some r => some (Side.east, r)
  | none =>
  match takeLitCI "west".data l with
  | some r => some (Side.west, r)
  | none => none

/-- `(?P<kind>BW|SR)`; the matched text upper-cased is the stored kind. -/
def takeKind (l : List Char) : Option (String × List Char) :=
  match takeLitCI "bw".data l with
  | some r => some ("BW", r)
  | none =>
  match takeLitCI "sr".data l with
  | some r => some ("SR", r)
  | none => none

/-- `\s*(?P<qnum>\d+)\b` at the current position (just after a `/`). -/
def qnumAt (l : List Char) : Option Nat :=
  let l1 := dropSpaces l
  match takeDigits1 l1 with
  | none => none
  | some (d, r) => if boundaryB r then some (natOfDigits d) else none

/-- `.*?/\s*(?P<qnum>\d+)\b`: the lazy `.*?` (which cannot cross a newline)
advances one character at a time; at each `/` the suffix is tried, and on
failure the `/` itself is consumed by `.*?` and the scan continues. -/
def findSlashQnum : List Char → Option Nat
  | [] => none
  | c :: rest =>
    if c = '/' then
      match qnumAt rest with
      | some q => some q
      | none => findSlashQnum rest
    else if c = '\n' then none
    else findSlashQnum rest

/-- `L(?P<level>\d{1,2})\s+`: the digit run after `L` must have length 1 or 2
and be followed by whitespace (a longer run fails under every backtracking
split, because the shorter alternatives leave a digit where `\s` is needed). -/
def takeLevel (l : List Char) : Option (Nat × List Char) :=
  match takeDigits1 l with
  | none => none
  | some (d, r) =>
    if d.length ≤ 2 then
      match takeSpaces1 r with
      | none => none
      | some r2 => some (natOfDigits d, r2)
    else none

/-- The part of the line matcher from the side word on:
`(side)\s+(kind)\b.*?/\s*(qnum)\b`. -/
def lineFromSide (cnt : List Char) (b : Char) (lvl : Nat) (l : List Char) : Option Entry :=
  match takeSideLine l with
  | Option.none => Option.none
  | some (sd, l1) =>
    match takeSpaces1 l1 with
    | Option.none => Option.none
    | some l2 =>
      match takeKind l2 with
      | Option.none => Option.none
      | some (kd, l3) =>
        if boundaryB l3 then
          match findSlashQnum l3 with
          | Option.none => Option.none
          | some q =>
            some
              { block := upperC b, level := lvl, side := sd
                qnum := q, count := natOfDigits cnt, kind := kd }
        else Option.none

/-- The part of the line matcher from the block letter on:
`([A-Z])\s+L(\d{1,2})\s+...`. -/
def lineFromBlock (cnt : List Char) (l : List Char) : Option Entry :=
  match l with
  | [] => Option.none
  | b :: l1 =>
    if isAlphaC b then
      match takeSpaces1 l1 with
      | Option.none => Option.none
      | some l2 =>
        match takeLitCI "l".data l2 with
        | Option.none => Option.none
        | some l3 =>
          match takeLevel l3 with
          | Option.none => Option.none
          | some (lvl, l4) => lineFromSide cnt b lvl l4
    else Option.none

/-- `LINE_RE.search(raw)` followed by the `Entry(...)` construction in
`parse_txt`; `none` models "no match, line skipped". -/
def parse_line (l : List Char) : Option Entry :=
  match takeDigits1 (dropSpaces l) with
  | Option.none => Option.none
  | some (cnt, l1) =>
    match takeSpaces1 l1 with
    | Option.none => Option.none
    | some l2 =>
      match takeLitCI "pictures".data l2 with
      | Option.none => Option.none
      | some l3 =>
        match takeChar '-' (dropSpaces l3) with
        | Option.none => Option.none
        | some l4 =>
          match takeLitCI "block".data (dropSpaces l4) with
          | Option.none => Option.none
          | some l5 =>
            match takeSpaces1 l5 with
            | Option.none => Option.none
            | some l6 => lineFromBlock cnt l6

/-- `parse_txt`: one `LINE_RE.search` per input line, collecting the
matches in order; non-matching lines contribute nothing. -/
def parse_txt (lines : List String) : List Entry :=
  lines.filterMap fun s => parse_line s.data

/-! ### The location-label matcher (`LOC_STRICT_RE`, applied by `parse_loc`)

```
Block\s+(?P<block>[A-Z])\b .*?
(?:
    (?P<gl>\b0{0,2}\s*-\s*Ground\s+Level\b) |
    (?:\b\d{1,2}\s*-\s*Level\s+(?P<lvl2>\d{1,2})\b) |
    (?:\bLevel\s+(?P<lvl1>\d{1,2})\b) |
    (?:\bL(?P<lvl0>\d{1,2})\b)
)
.*/\s*(?P<side>East|West|North|South)\s+Elevation\b
```
compiled with `re.IGNORECASE | re.VERBOSE`, applied with `.search`
(unanchored: every start position is tried, left to right).  The level
alternatives are tried in the written order at each position the lazy
`.*?` reaches; the greedy `.*` before the `/` prefers the rightmost
viable `/`.  Backtracking choice points that can never produce a second
outcome (quantifiers followed by disjoint character classes, digit runs
followed by `\b`) are compiled to their deterministic residue; the
genuinely nondeterministic points (`0{0,2}`, the alternation, `.*?`,
`.*`, the search loop) keep explicit `<|>`-ordered alternatives. -/

/-- Which level alternative matched, with the digits captured by its group
(`gl` has no numeric capture). -/
inductive LevelG : Type
  | gl
  | lvl2 (ds : List Char)
  | lvl1 (ds : List Char)
  | lvl0 (ds : List Char)
deriving DecidableEq, Repr

/-- The named groups `parse_loc` reads from a `LOC_STRICT_RE` match. -/
structure LocGroups : Type where
  block : Char
  gl : Option Unit
  lvl2 : Option (List Char)
  lvl1 : Option (List Char)
  lvl0 : Option (List Char)
  side : Side
deriving DecidableEq, Repr

/-- `(?P<side>East|West|North|South)`, in this order. -/
def takeSideLoc (l : List Char) : Option (Side × List Char) :=
  match takeLitCI "east".data l with
  | some r => some (Side.east, r)
  | none =>
  match takeLitCI "west".data l with
  | some r => some (Side.west, r)
  | none =>
  match takeLitCI "north".data l with
  | some r => some (Side.north, r)
  | none =>
  match takeLitCI "south".data l with
  | some r => some (Side.south, r)
  | none => none

/-- `\s*(?P<side>East|West|North|South)\s+Elevation\b`, at the position just
after a `/`. -/
def sideAfterSlash (l : List Char) : Option Side :=
  let l1 := dropSpaces l
  match takeSideLoc l1 with
  | none => none
  | some (sd, l2) =>
    match takeSpaces1 l2 with
    | none => none
    | some l3 =>
      match takeLitCI "elevation".data l3 with
      | none => none
      | some l4 => if boundaryB l4 then some sd else none

/-- `.*/\s*(?P<side>...)\s+Elevation\b`: the greedy `.*` (which cannot cross
a newline) tries the longest extension first, so the rightmost viable `/`
wins. -/
def tailSide : List Char → Option Side
  | [] => none
  | c :: rest =>
    (if c = '\n' then none else tailSide rest) <|>
    (if c = '/' then sideAfterSlash rest else none)

/-- `\s*-\s*Ground\s+Level\b` (the part of the `gl` alternative after its
zeros), returning the rest of the input after the clause. -/
def glCore (l : List Char) : Option (List Char) :=
  let l1 := dropSpaces l
  match takeChar '-' l1 with
  | none => none
  | some l2 =>
    let l3 := dropSpaces l2
    match takeLitCI "ground".data l3 with
    | none => none
    | some l4 =>
      match takeSpaces1 l4 with
      | none => none
      | some l5 =>
        match takeLitCI "level".data l5 with
        | none => none
        | some l6 => if boundaryB l6 then some l6 else none

/-- `0{0,2}` then `glCore`: greedy, two zeros tried first, then one, then
none (as the engine backtracks). -/
def zerosThenGl (l : List Char) : Option (List Char) :=
  match l with
  | '0' :: '0' :: l2 => glCore l2 <|> glCore ('0' :: l2) <|> glCore ('0' :: '0' :: l2)
  | '0' :: l1 => glCore l1 <|> glCore ('0' :: l1)
  | _ => glCore l

/-- `\d{1,2}` whose digits are kept, followed by `\b`: the run must have
length 1 or 2 and be followed by a non-word character or the end (every
shorter backtracking split leaves a digit, which is a word character). -/
def takeDigits12B (l : List Char) : Option (List Char × List Char) :=
  match takeDigits1 l with
  | none => none
  | some (d, r) =>
    if d.length ≤ 2 && boundaryB r then some (d, r) else none

/-- Alternative 2 without its leading `\b`:
`\d{1,2}\s*-\s*Level\s+(?P<lvl2>\d{1,2})\b`. -/
def altLvl2 (l : List Char) : Option (List Char × List Char) :=
  match takeDigits1 l with
  | none => none
  | some (d, r) =>
    if d.length ≤ 2 then
      let r1 := dropSpaces r
      match takeChar '-' r1 with
      | none => none
      | some r2 =>
        let r3 := dropSpaces r2
        match takeLitCI "level".data r3 with
        | none => none
        | some r4 =>
          match takeSpaces1 r4 with
          | none => none
          | some r5 => takeDigits12B r5
    else none

/-- Alternative 3 without its leading `\b`: `Level\s+(?P<lvl1>\d{1,2})\b`. -/
def altLvl1 (l : List Char) : Option (List Char × List Char) :=
  match takeLitCI "level".data l with
  | none => none
  | some r =>
    match takeSpaces1 r with
    | none => none
    | some r1 => takeDigits12B r1

/-- Alternative 4 without its leading `\b`: `L(?P<lvl0>\d{1,2})\b`. -/
def altLvl0 (l : List Char) : Option (List Char × List Char) :=
  match takeLitCI "l".data l with
  | none => none
  | some r => takeDigits12B r

/-- The level alternation followed by the tail of the pattern, at one scan
position (`pc` is the previous character, for the leading `\b` shared by
all four alternatives); alternatives in priority order, and an alternative
is abandoned for the next one when the tail fails after it. -/
def clauseThenTail (pc : Char) (l : List Char) : Option (LevelG × Side) :=
  if boundaryAt pc l then
    ((zerosThenGl l).bind fun rest => (tailSide rest).map fun sd => (LevelG.gl, sd)) <|>
    ((altLvl2 l).bind fun p => (tailSide p.2).map fun sd => (LevelG.lvl2 p.1, sd)) <|>
    ((altLvl1 l).bind fun p => (tailSide p.2).map fun sd => (LevelG.lvl1 p.1, sd)) <|>
    ((altLvl0 l).bind fun p => (tailSide p.2).map fun sd => (LevelG.lvl0 p.1, sd))
  else none

/-- The lazy `.*?` between the block and the level clause: try the clause
at the current position first, else consume one (non-newline) character
and continue. -/
def lazyScan (pc : Char) (l : List Char) : Option (LevelG × Side) :=
  match clauseThenTail pc l with
  | some r => some r
  | none =>
    match l with
    | [] => none
    | c :: rest => if c = '\n' then none else lazyScan c rest

/-- Assemble the group record from the block letter and the alternative
that matched. -/
def mkGroups (b : Char) (lg : LevelG) (sd : Side) : LocGroups :=
  match lg with
  | LevelG.gl => ⟨b, some (), none, none, none, sd⟩
  | LevelG.lvl2 ds => ⟨b, none, some ds, none, none, sd⟩
  | LevelG.lvl1 ds => ⟨b, none, none, some ds, none, sd⟩
  | LevelG.lvl0 ds => ⟨b, none, none, none, some ds, sd⟩

/-- `Block\s+(?P<block>[A-Z])\b` then the scan, tried at one start
position. -/
def blockAt (l : List Char) : Option LocGroups :=
  match takeLitCI "block".data l with
  | none => none
  | some l1 =>
    match takeSpaces1 l1 with
    | none => none
    | some l2 =>
      match l2 with
      | [] => none
      | b :: l3 =>
        if isAlphaC b && boundaryB l3 then
          (lazyScan b l3).map fun p => mkGroups b p.1 p.2
        else none

/-- `LOC_STRICT_RE.search`: start positions tried left to right. -/
def locSearch : List Char → Option LocGroups
  | [] => none
  | l@(_ :: rest) => blockAt l <|> locSearch rest

/-! ### Cell values and `parse_loc` -/

/-- A spreadsheet cell value as `parse_loc` can receive it: `None`, text, a
number (what `write_one` stores), or a boolean; only text can match. -/
inductive CellValue : Type
  | none
  | str (s : String)
  | int (n : Int)
  | bool (b : Bool)
deriving DecidableEq, Repr

def isStrV : CellValue → Bool
  | CellValue.str _ => true
  | _ => false

/-- The location key `(block, level, side)` (block upper-cased, side
capitalised as the `Side` enumeration). -/
abbrev LocKey := Char × Nat × Side

/-- `parse_loc`: `None` for a non-string, `None` on no match, else the
key extracted from the groups.  `Except.error ()` models the
`StopIteration` the `next(...)` on line 90 of the source would raise if a
match carried no `gl` and no numeric level group. -/
def parse_loc (v : CellValue) : Except Unit (Option LocKey) :=
  match v with
  | CellValue.str s =>
    match locSearch s.data with
    | Option.none => Except.ok Option.none
    | some g =>
      match g.gl with
      | some _ => Except.ok (some (upperC g.block, 0, g.side))
      | Option.none =>
        match g.lvl2 <|> g.lvl1 <|> g.lvl0 with
        | some ds => Except.ok (some (upperC g.block, natOfDigits ds, g.side))
        | Option.none => Except.error ()
  | _ => Except.ok Option.none

/-- `parse_loc` as the total function the rest of the program observes
(no call ever raises: theorem `C8_parse_loc_total`). -/
def parse_locT (v : CellValue) : Option LocKey :=
  match parse_loc v with
  | Except.ok r => r
  | Except.error _ => Option.none

/-! ### Workbook model -/

/-- A cell's background fill: `PatternFill()` (no fill) or a solid colour. -/
inductive Fill : Type
  | noFill
  | solid (fgColor : String)
deriving DecidableEq, Repr

structure Cell : Type where
  value : CellValue
  fill : Fill
deriving DecidableEq, Repr

/-- A worksheet: title, extent, and the cell grid (rows and columns are
1-based, as in openpyxl; `max_row`/`max_col` never change here because
every write targets an indexed row/column inside the extent). -/
structure Sheet : Type where
  title : String
  maxRow : Nat
  maxCol : Nat
  cells : Nat → Nat → Cell

instance : Inhabited Sheet := ⟨⟨"", 0, 0, fun _ _ => ⟨CellValue.none, Fill.noFill⟩⟩⟩

/-- `ws.cell(row=r, column=c).value = v; ... .fill = f`. -/
def setCell (ws : Sheet) (r c : Nat) (v : CellValue) (f : Fill) : Sheet :=
  { ws with cells := fun r' c' => if r' = r ∧ c' = c then ⟨v, f⟩ else ws.cells r' c' }

/-- A workbook: the ordered worksheet list.  Worksheet objects are
identified by their position (the caches in `process` are keyed on object
identity). -/
structure Workbook : Type where
  sheets : List Sheet

def getSheet (wb : Workbook) (i : Nat) : Sheet := wb.sheets.getD i default

def setSheet (wb : Workbook) (i : Nat) (ws : Sheet) : Workbook :=
  ⟨wb.sheets.set i ws⟩

/-! ### Colours and the single-cell writer -/

/-- `color_fill_for_count`: red for `n ≤ 6`, yellow for `7 ≤ n ≤ 20`,
green otherwise. -/
def color_fill_for_count (n : Nat) : Fill :=
  if n ≤ 6 then Fill.solid "FFFF0000"
  else if 7 ≤ n ∧ n ≤ 20 then Fill.solid "FFFFFF00"
  else Fill.solid "FF00B050"

/-- `write_one`: store the count and replace the fill by the colour for it. -/
def write_one (ws : Sheet) (r c : Nat) (value : Nat) : Sheet :=
  setCell ws r c (CellValue.int value) (color_fill_for_count value)

/-! ### Sheet resolution (`SHEET_ALIASES`, `pick_sheet_for_kind`) -/

/-- The fixed category → alias table (`.get(kind, [])` for other keys). -/
def SHEET_ALIASES (kind : String) : List String :=
  if kind = "BW" then ["brickwork"]
  else if kind = "SR" then ["sideraise", "siderise", "side raise", "side-raise", "side rise"]
  else []

/-- `p` is a prefix of `t`. -/
def prefixOfB : List Char → List Char → Bool
  | [], _ => true
  | _ :: _, [] => false
  | p :: ps, c :: cs => p = c && prefixOfB ps cs

/-- Python's `p in t` on strings: `p` occurs contiguously in `t`. -/
def containsSub (p t : List Char) : Bool :=
  match t with
  | [] => p.isEmpty
  | _ :: rest => prefixOfB p t || containsSub p rest

/-- The worksheet loop of `pick_sheet_for_kind`, returning the position of
the first worksheet whose lowered title contains one of the (lowered)
aliases. -/
def pickAux (aliases : List (List Char)) : List Sheet → Nat → Option Nat
  | [], _ => Option.none
  | ws :: rest, i =>
    if aliases.any (fun a => containsSub a (lowerL ws.title.data)) then some i
    else pickAux aliases rest (i + 1)

def pick_sheet_for_kind (wb : Workbook) (kind : String) : Option Nat :=
  pickAux ((SHEET_ALIASES kind).map fun a => lowerL a.data) wb.sheets 0

/-! ### Index building and stale-row clearing -/

/-- Python-`dict` association lists: insertion keeps an existing key in
place, otherwise appends. -/
def dictInsert {K V : Type} [DecidableEq K] : List (K × V) → K → V → List (K × V)
  | [], k, v => [(k, v)]
  | (k', v') :: rest, k, v =>
    if k' = k then (k', v) :: rest else (k', v') :: dictInsert rest k v

/-- `dict` lookup (`d.get(k)` without default). -/
def dictLookup {K V : Type} [DecidableEq K] : List (K × V) → K → Option V
  | [], _ => Option.none
  | (k', v') :: rest, k => if k' = k then some v' else dictLookup rest k

/-- `re.match(r"^\s*(\d+)", txt)` followed by `int(...)`, on string cells. -/
def leadingNat (v : CellValue) : Option Nat :=
  match v with
  | CellValue.str s =>
    match takeDigits1 (dropSpaces s.data) with
    | some (d, _) => some (natOfDigits d)
    | Option.none => Option.none
  | _ => Option.none

abbrev QMap := List (Nat × Nat)
abbrev RMap := List (LocKey × Nat)

/-- `build_q_header_map`: scan row 1 left to right; a header cell whose
text starts (after optional whitespace) with digits maps that number to
the column, later columns overwriting earlier ones. -/
def build_q_header_map (ws : Sheet) : QMap :=
  (List.range' 1 ws.maxCol).foldl
    (fun m j =>
      match leadingNat (ws.cells 1 j).value with
      | some q => dictInsert m q j
      | Option.none => m)
    []

/-- `build_row_map`: scan rows 2 .. max_row; a row whose column-A value
parses as a location is recorded unless that key was already seen. -/
def build_row_map (ws : Sheet) : RMap :=
  (List.range' 2 (ws.maxRow - 1)).foldl
    (fun m r =>
      match parse_locT ((ws.cells r 1).value) with
      | some key => if dictLookup m key = Option.none then dictInsert m key r else m
      | Option.none => m)
    []

/-- Clear every indexed column of one row: value `None`, fill
`PatternFill()`. -/
def clearRowCols (ws : Sheet) (r : Nat) (cols : List Nat) : Sheet :=
  cols.foldl (fun w c => setCell w r c CellValue.none Fill.noFill) ws

/-- `clear_non_location_rows`: for every row below the header whose
column-A value does not parse as a location, clear every indexed column;
no-op when the header index is empty. -/
def clear_non_location_rows (ws : Sheet) (qmap : QMap) : Sheet :=
  let cols := qmap.map Prod.snd
  if cols.isEmpty then ws
  else
    (List.range' 2 (ws.maxRow - 1)).foldl
      (fun w r =>
        if parse_locT ((w.cells r 1).value) = Option.none then clearRowCols w r cols
        else w)
      ws

/-! ### The orchestrator (`process`) -/

/-- The per-record skip reasons (the f-strings appended to `skipped`). -/
inductive Reason : Type
  | sheetNotFound (kind : String)   -- "sheet for kind '…' not found"
  | locationNotFound                -- "location not found in column A"
  | qnumNotFound                    -- "question number not found in header"
deriving DecidableEq, Repr

/-- The mutable state of one `process` run.  `resolveLog` is ghost
instrumentation: it records one element per call of
`pick_sheet_for_kind`, at the call's unique site. -/
structure PState : Type where
  wb : Workbook
  sheetCache : List (String × Option Nat)
  headerCache : List (Nat × QMap)
  rowCache : List (Nat × RMap)
  cleared : List Nat
  written : Nat
  skipped : List (Entry × Reason)
  resolveLog : List String

def initState (wb : Workbook) : PState := ⟨wb, [], [], [], [], 0, [], []⟩

/-- `sheet_cache.get(e.kind)`: a stored `None` and an absent key are both
`None` to the caller. -/
def cacheGet (cache : List (String × Option Nat)) (kind : String) : Option Nat :=
  match dictLookup cache kind with
  | some v => v
  | Option.none => Option.none

/-- Step 1 of the loop body: pick the worksheet from the cache, or resolve
and store (appending the skip when resolution finds nothing).  Returns the
updated state and the worksheet to use, `none` meaning "continue". -/
def resolveStep (st : PState) (e : Entry) : PState × Option Nat :=
  match cacheGet st.sheetCache e.kind with
  | some i => (st, some i)
  | Option.none =>
    let ws := pick_sheet_for_kind st.wb e.kind
    let st' := { st with
      sheetCache := dictInsert st.sheetCache e.kind ws
      resolveLog := st.resolveLog ++ [e.kind] }
    match ws with
    | Option.none =>
      ({ st' with skipped := st'.skipped ++ [(e, Reason.sheetNotFound e.kind)] }, Option.none)
    | some i => (st', some i)

/-- Steps 2–3: build the header and row indices once per worksheet and
clear the non-location rows once per worksheet. -/
def ensureStep (st : PState) (i : Nat) : PState :=
  let st1 :=
    if (dictLookup st.headerCache i).isNone then
      { st with headerCache := dictInsert st.headerCache i (build_q_header_map (getSheet st.wb i)) }
    else st
  let st2 :=
    if (dictLookup st1.rowCache i).isNone then
      { st1 with rowCache := dictInsert st1.rowCache i (build_row_map (getSheet st1.wb i)) }
    else st1
  if i ∈ st2.cleared then st2
  else
    { st2 with
      wb := setSheet st2.wb i
        (clear_non_location_rows (getSheet st2.wb i) ((dictLookup st2.headerCache i).getD []))
      cleared := i :: st2.cleared }

/-- Steps 4–6: look up the row (first) and the column, skip with the
matching reason on a miss, else write and count. -/
def lookupWrite (st : PState) (e : Entry) (i : Nat) : PState :=
  let qmap := (dictLookup st.headerCache i).getD []
  let rmap := (dictLookup st.rowCache i).getD []
  match dictLookup rmap (e.block, e.level, e.side) with
  | Option.none => { st with skipped := st.skipped ++ [(e, Reason.locationNotFound)] }
  | some row =>
    match dictLookup qmap e.qnum with
    | Option.none => { st with skipped := st.skipped ++ [(e, Reason.qnumNotFound)] }
    | some col =>
      { st with
        wb := setSheet st.wb i (write_one (getSheet st.wb i) row col e.count)
        written := st.written + 1 }

/-- The body of the `for e in entries` loop of `process`. -/
def processEntry (st : PState) (e : Entry) : PState :=
  match resolveStep st e with
  | (st', Option.none) => st'
  | (st', some i) => lookupWrite (ensureStep st' i) e i

/-- `process` up to the final `wb.save` (the returned state carries the
workbook that is saved, the success counter and the skip list). -/
def process (entries : List Entry) (wb : Workbook) : PState :=
  entries.foldl processEntry (initState wb)

/-- Number of `pick_sheet_for_kind` calls performed for a category. -/
def resCount (st : PState) (kind : String) : Nat :=
  (st.resolveLog.filter fun k => k = kind).length

/-- A worksheet title case-insensitively contains some alias of the
category (the resolution predicate, stated declaratively). -/
def sheetNameHasAlias (kind : String) (ws : Sheet) : Prop :=
  ∃ a ∈ SHEET_ALIASES kind, containsSub (lowerL a.data) (lowerL ws.title.data) = true

/-! ### Concrete data used to instantiate hypothesis-bearing theorems -/

/-- An all-empty worksheet with the given title. -/
def blankSheet (t : String) : Sheet :=
  ⟨t, 1, 1, fun _ _ => ⟨CellValue.none, Fill.noFill⟩⟩

/-- A workbook with no worksheet matching any category alias. -/
def wbNoAlias : Workbook := ⟨[blankSheet "Sheet1"]⟩

/-- A small brickwork worksheet: header "4 All Clean" in column 4, one
location row (row 2) and one stale row (row 3). -/
def brickSheet : Sheet :=
  ⟨"Brickwork", 3, 4, fun r c =>
    if r = 1 ∧ c = 4 then ⟨CellValue.str "4 All Clean", Fill.noFill⟩
    else if r = 2 ∧ c = 1 then ⟨CellValue.str "Block A 3-Level 3 / East Elevation", Fill.noFill⟩
    else ⟨CellValue.none, Fill.noFill⟩⟩

def wbBrick : Workbook := ⟨[brickSheet]⟩

/-- A report entry for category BW, question 4, at `('A', 3, East)`. -/
def entryA3E (count : Nat) : Entry := ⟨'A', 3, Side.east, 4, count, "BW"⟩

/-- A BW entry whose location is on no sheet. -/
def entryNoLoc : Entry := ⟨'B', 9, Side.west, 4, 5, "BW"⟩

/-- A BW entry whose question number is in no header. -/
def entryNoQ : Entry := ⟨'A', 3, Side.east, 7, 5, "BW"⟩

/-- The four side words of the location grammar with their parsed sides. -/
def sideWordsLoc : List (String × Side) :=
  [("East", Side.east), ("West", Side.west), ("North", Side.north), ("South", Side.south)]

/-- A canonical label whose level clause is `<d1>-Level <d2>`. -/
def mkLevelLabel (d1 d2 : List Char) (sdw : String) : String :=
  ⟨"Block A ".data ++ (d1 ++ ("-Level ".data ++ (d2 ++ (" / ".data ++ (sdw.data ++
    " Elevation".data)))))⟩

/-- A canonical label whose level clause is the ground-level alternative,
with `z` zeros (zero to two) before the dash. -/
def mkGroundLabel (z : List Char) (sdw : String) : String :=
  ⟨"Block A ".data ++ z ++ "-Ground Level / ".data ++ sdw.data ++ " Elevation".data⟩

/-! ### The report-line grammar, stated declaratively

The spec's per-line grammar, written as existence of a decomposition of
the line into its tokens — the form the iff-theorem for C1 relates to
the operational matcher.  `LineGrammarClaim` is the grammar exactly as
the claim words it (matched anywhere in the line, the dash after
"pictures" optional); `LineGrammar` is the amended version (anchored at
the start of the line after optional whitespace, dash mandatory), which
is what `LINE_RE` actually requires. -/

def allSpaceB (l : List Char) : Bool := l.all isSpaceC

/-- The head of the rest, if any, does not satisfy `p` (the side condition
that makes a greedy character-class split of the source regex unique). -/
def headNotP (p : Char → Bool) : List Char → Bool
  | [] => true
  | c :: _ => !p c

def allDigitB (l : List Char) : Bool := l.all isDigitC

def noNewlineB (l : List Char) : Bool := l.all fun c => c ≠ '\n'

/-- A nonempty all-whitespace token (`\s+`). -/
abbrev Spaces1 (l : List Char) : Prop := allSpaceB l = true ∧ l ≠ []

/-- A nonempty all-digit token (`\d+`). -/
abbrev Digits1 (l : List Char) : Prop := allDigitB l = true ∧ l ≠ []

/-- A case-insensitive occurrence of a (lower-case) literal. -/
abbrev EqCI (w lit : List Char) : Prop := lowerL w = lit

/-- `\s*(?P<qnum>\d+)\b` after the slash: optional whitespace, digits, and
a word boundary (end of line or a non-word character). -/
def QnumTail (l : List Char) : Prop :=
  ∃ sp q rest, l = sp ++ (q ++ rest) ∧ allSpaceB sp = true ∧ Digits1 q ∧ boundaryB rest = true

/-- `.*?/\s*(?P<qnum>\d+)\b`: free text (no newline) up to a `/` whose
suffix carries the question number. -/
def SlashQnumTail (l : List Char) : Prop :=
  ∃ free rest, l = free ++ '/' :: rest ∧ noNewlineB free = true ∧ QnumTail rest

/-- `(?P<kind>BW|SR)\b` and the rest of the pattern. -/
def KindTail (l : List Char) : Prop :=
  ∃ kd rest, l = kd ++ rest ∧ (EqCI kd "bw".data ∨ EqCI kd "sr".data) ∧
    boundaryB rest = true ∧ SlashQnumTail rest

/-- `(?P<side>North|South|East|West)\s+` and the rest. -/
def SideTail (l : List Char) : Prop :=
  ∃ sd sp rest, l = sd ++ (sp ++ rest) ∧
    (EqCI sd "north".data ∨ EqCI sd "south".data ∨ EqCI sd "east".data ∨
      EqCI sd "west".data) ∧
    Spaces1 sp ∧ KindTail rest

/-- `L(?P<level>\d{1,2})\s+` and the rest. -/
def LevelTail (l : List Char) : Prop :=
  ∃ lc lvl sp rest, l = lc :: (lvl ++ (sp ++ rest)) ∧ lowerC lc = 'l' ∧
    Digits1 lvl ∧ lvl.length ≤ 2 ∧ Spaces1 sp ∧ SideTail rest

/-- `Block\s+(?P<block>[A-Z])\s+` and the rest. -/
def BlockTail (l : List Char) : Prop :=
  ∃ bw sp1 b sp2 rest, l = bw ++ (sp1 ++ b :: (sp2 ++ rest)) ∧ EqCI bw "block".data ∧
    Spaces1 sp1 ∧ isAlphaC b = true ∧ Spaces1 sp2 ∧ LevelTail rest

/-- `pictures\s*-\s*` and the rest (dash mandatory, as in `LINE_RE`). -/
def PicturesTail (l : List Char) : Prop :=
  ∃ pw sp2 sp3 rest, l = pw ++ (sp2 ++ '-' :: (sp3 ++ rest)) ∧ EqCI pw "pictures".data ∧
    allSpaceB sp2 = true ∧ allSpaceB sp3 = true ∧ BlockTail rest

/-- `pictures ["-"]` as the claim words it: between "pictures" and "Block"
either whitespace alone or whitespace-dash-whitespace. -/
def PicturesTailClaim (l : List Char) : Prop :=
  ∃ pw mid rest, l = pw ++ (mid ++ rest) ∧ EqCI pw "pictures".data ∧
    (allSpaceB mid = true ∨
      ∃ m1 m2, mid = m1 ++ '-' :: m2 ∧ allSpaceB m1 = true ∧ allSpaceB m2 = true) ∧
    BlockTail rest

/-- `(?P<count>\d+)\s+pictures...` with the mandatory dash. -/
def CountTail (l : List Char) : Prop :=
  ∃ cnt sp1 rest, l = cnt ++ (sp1 ++ rest) ∧ Digits1 cnt ∧ Spaces1 sp1 ∧ PicturesTail rest

/-- The count onwards, as the claim words it (dash optional). -/
def CountTailClaim (l : List Char) : Prop :=
  ∃ cnt sp1 rest, l = cnt ++ (sp1 ++ rest) ∧ Digits1 cnt ∧ Spaces1 sp1 ∧
    PicturesTailClaim rest

/-- The amended line grammar: anchored at the start of the line, after
optional leading whitespace (`^\s*`), with the dash mandatory. -/
def LineGrammar (l : List Char) : Prop :=
  ∃ sp0 rest, l = sp0 ++ rest ∧ allSpaceB sp0 = true ∧ CountTail rest

/-- The line grammar exactly as the claim states it: the pattern may occur
anywhere in the line and the dash after "pictures" is optional. -/
def LineGrammarClaim (l : List Char) : Prop :=
  ∃ pre rest, l = pre ++ rest ∧ CountTailClaim rest

/-- Invariant of the sheet-resolution cache for one category, in a run
whose workbook resolves that category successfully: either the category
has not been resolved yet (no call so far), or its worksheet is cached
and exactly one call was made. -/
def ResolveInv (wb0 : Workbook) (k : String) (st : PState) : Prop :=
  dictLookup st.sheetCache k = Option.none ∧ resCount st k = 0 ∨
  dictLookup st.sheetCache k = some (pick_sheet_for_kind wb0 k) ∧ resCount st k = 1

/-- For a category with no matching worksheet, the cache entry is either
absent or a stored `None` — indistinguishable through `dict.get`. -/
def CacheUnset (k : String) (st : PState) : Prop :=
  dictLookup st.sheetCache k = Option.none ∨ dictLookup st.sheetCache k = some Option.none

/-! ## Theorems -/

/-! ### Shared helper lemmas -/

theorem dictLookup_insert_self {K V : Type} [DecidableEq K] (m : List (K × V)) (k : K) (v : V) :
    dictLookup (dictInsert m k v) k = some v := by
  induction m with
  | nil => simp [dictInsert, dictLookup]
  | cons p rest ih =>
    obtain ⟨k', v'⟩ := p
    by_cases h : k' = k <;> simp [dictInsert, dictLookup, h, ih]

theorem dictLookup_insert_ne {K V : Type} [DecidableEq K] (m : List (K × V)) (k k' : K) (v : V)
    (h : k' ≠ k) : dictLookup (dictInsert m k v) k' = dictLookup m k' := by
  induction m with
  | nil => simp [dictInsert, dictLookup, Ne.symm h]
  | cons p rest ih =>
    obtain ⟨k₀, v₀⟩ := p
    by_cases h0 : k₀ = k
    · subst h0
      simp [dictInsert, dictLookup, Ne.symm h]
    · by_cases h1 : k₀ = k'
      · subst h1
        simp [dictInsert, dictLookup, h0, Ne.symm h0, h]
      · simp [dictInsert, dictLookup, h0, h1, ih]

theorem setCell_cells (ws : Sheet) (r c : Nat) (v : CellValue) (f : Fill) (r' c' : Nat) :
    (setCell ws r c v f).cells r' c' =
      if r' = r ∧ c' = c then ⟨v, f⟩ else ws.cells r' c' := rfl

theorem setCell_title (ws : Sheet) (r c : Nat) (v : CellValue) (f : Fill) :
    (setCell ws r c v f).title = ws.title := rfl

/-- **C7.** Cell colour selection is a pure total function of the count
alone: counts `≤ 6` get the red fill, counts in `7 .. 20` the yellow
fill, counts `≥ 21` the green fill — the three iff-characterisations
show there is exactly one colour per count, with no gap and no overlap —
and `write_one` replaces the target cell's value and fill entirely with
the count and that colour, whatever they were before. -/
theorem C7_color_fill_thresholds :
    ∀ (n : Nat) (ws : Sheet) (r c : Nat),
      ((color_fill_for_count n = Fill.solid "FFFF0000" ↔ n ≤ 6) ∧
       (color_fill_for_count n = Fill.solid "FFFFFF00" ↔ 7 ≤ n ∧ n ≤ 20) ∧
       (color_fill_for_count n = Fill.solid "FF00B050" ↔ 21 ≤ n)) ∧
      (write_one ws r c n).cells r c = ⟨CellValue.int n, color_fill_for_count n⟩ := by
  intro n ws r c
  constructor
  · unfold color_fill_for_count
    split_ifs with h1 h2 <;>
      refine ⟨?_, ?_, ?_⟩ <;> simp <;> omega
  · simp [write_one, setCell_cells]

theorem pickAux_none_iff (aliases : List (List Char)) (sheets : List Sheet) (off : Nat) :
    pickAux aliases sheets off = Option.none ↔
      ∀ ws ∈ sheets, (aliases.any fun a => containsSub a (lowerL ws.title.data)) = false := by
  induction sheets generalizing off with
  | nil => simp [pickAux]
  | cons ws rest ih =>
    by_cases h : (aliases.any fun a => containsSub a (lowerL ws.title.data)) = true
    · simp only [pickAux, h, if_true]
      constructor
      · intro h'; cases h'
      · intro hall
        exact absurd (hall ws (List.mem_cons_self ws rest)) (by simp [h])
    · simp only [Bool.not_eq_true] at h
      simp only [pickAux, h, Bool.false_eq_true, if_false]
      rw [ih]
      constructor
      · intro hall ws' hws'
        rcases List.mem_cons.mp hws' with hh | hh
        · subst hh; exact h
        · exact hall ws' hh
      · intro hall ws' hws'
        exact hall ws' (List.mem_cons_of_mem ws hws')

theorem pickAux_some_iff (aliases : List (List Char)) (sheets : List Sheet) (off i : Nat) :
    pickAux aliases sheets off = some i ↔
      ∃ k, off + k = i ∧
        (∃ ws, sheets[k]? = some ws ∧
          (aliases.any fun a => containsSub a (lowerL ws.title.data)) = true) ∧
        ∀ j ws', j < k → sheets[j]? = some ws' →
          (aliases.any fun a => containsSub a (lowerL ws'.title.data)) = false := by
  induction sheets generalizing off with
  | nil => simp [pickAux]
  | cons ws rest ih =>
    by_cases h : (aliases.any fun a => containsSub a (lowerL ws.title.data)) = true
    · simp only [pickAux, h, if_true]
      constructor
      · rintro h'
        have hoi : off = i := by
          simpa using h'
        refine ⟨0, by omega, ⟨ws, by simp, h⟩, ?_⟩
        intro j ws' hj
        exact absurd hj (by omega)
      · rintro ⟨k, hk, ⟨ws₀, hget, hmatch⟩, hmin⟩
        rcases k with _ | k
        · simp only [Option.some.injEq]
          omega
        · exact absurd h (by simpa using hmin 0 ws (Nat.succ_pos k) (by simp))
    · simp only [Bool.not_eq_true] at h
      simp only [pickAux, h, Bool.false_eq_true, if_false, ih]
      constructor
      · rintro ⟨k, hk, hws, hmin⟩
        refine ⟨k + 1, by omega, by simpa using hws, ?_⟩
        intro j ws' hj hget
        rcases j with _ | j
        · simp only [List.getElem?_cons_zero, Option.some.injEq] at hget
          subst hget; exact h
        · exact hmin j ws' (by omega) (by simpa using hget)
      · rintro ⟨k, hk, hws, hmin⟩
        rcases k with _ | k
        · obtain ⟨ws₀, hget, hmatch⟩ := hws
          simp only [List.getElem?_cons_zero, Option.some.injEq] at hget
          subst hget
          simp [h] at hmatch
        · refine ⟨k, by omega, by simpa using hws, ?_⟩
          intro j ws' hj hget
          exact hmin (j + 1) ws' (by omega) (by simpa using hget)

/-- **C9.** `SHEET_ALIASES` is exactly the fixed table of the spec, and
sheet resolution returns the position of the first worksheet, in workbook
order, whose name case-insensitively contains some alias of the category
(`some i` exactly when sheet `i` matches and no earlier sheet does), and
`none` exactly when no worksheet's name contains any alias. -/
theorem C9_pick_sheet_first_alias_match :
    ∀ (wb : Workbook) (kind : String),
      (SHEET_ALIASES "BW" = ["brickwork"] ∧
       SHEET_ALIASES "SR" = ["sideraise", "siderise", "side raise", "side-raise", "side rise"]) ∧
      (∀ i, pick_sheet_for_kind wb kind = some i ↔
        (∃ ws, wb.sheets[i]? = some ws ∧ sheetNameHasAlias kind ws) ∧
        ∀ j ws', j < i → wb.sheets[j]? = some ws' → ¬ sheetNameHasAlias kind ws') ∧
      (pick_sheet_for_kind wb kind = Option.none ↔
        ∀ ws ∈ wb.sheets, ¬ sheetNameHasAlias kind ws) := by
  intro wb kind
  have hpred : ∀ ws : Sheet,
      (((SHEET_ALIASES kind).map fun a => lowerL a.data).any
          fun a => containsSub a (lowerL ws.title.data)) = true ↔
        sheetNameHasAlias kind ws := by
    intro ws
    simp [List.any_map, List.any_eq_true, sheetNameHasAlias, Function.comp]
  refine ⟨⟨rfl, rfl⟩, ?_, ?_⟩
  · intro i
    rw [pick_sheet_for_kind, pickAux_some_iff]
    constructor
    · rintro ⟨k, hk, ⟨ws, hget, hmatch⟩, hmin⟩
      have hki : k = i := by omega
      subst hki
      refine ⟨⟨ws, hget, (hpred ws).mp hmatch⟩, ?_⟩
      intro j ws' hj hget' hal
      have := hmin j ws' hj hget'
      rw [← Bool.not_eq_true, hpred ws'] at this
      exact this hal
    · rintro ⟨⟨ws, hget, hal⟩, hmin⟩
      refine ⟨i, by omega, ⟨ws, hget, (hpred ws).mpr hal⟩, ?_⟩
      intro j ws' hj hget'
      rw [← Bool.not_eq_true, hpred ws']
      exact hmin j ws' hj hget'
  · rw [pick_sheet_for_kind, pickAux_none_iff]
    constructor
    · intro h ws hws hal
      have := h ws hws
      rw [← Bool.not_eq_true, hpred ws] at this
      exact this hal
    · intro h ws hws
      rw [← Bool.not_eq_true, hpred ws]
      exact h ws hws

theorem qheader_fold_lookup (ws : Sheet) (js : List Nat) (m : QMap) (q : Nat) :
    dictLookup
        (js.foldl
          (fun m j =>
            match leadingNat ((ws.cells 1 j).value) with
            | some q' => dictInsert m q' j
            | Option.none => m)
          m) q =
      ((js.filter fun j => leadingNat ((ws.cells 1 j).value) = some q).getLast? <|>
        dictLookup m q) := by
  induction js using List.reverseRecOn with
  | nil => simp
  | append_singleton js j ih =>
    rw [List.foldl_append, List.filter_append]
    rcases hj : leadingNat ((ws.cells 1 j).value) with _ | q'
    · simp only [List.foldl_cons, List.foldl_nil, hj]
      have : (List.filter (fun j => decide (leadingNat ((ws.cells 1 j).value) = some q)) [j]) = [] := by
        simp [hj]
      rw [this, List.append_nil, ih]
    · simp only [List.foldl_cons, List.foldl_nil, hj]
      by_cases hq : q' = q
      · subst hq
        have hf : (List.filter (fun j => decide (leadingNat ((ws.cells 1 j).value) = some q')) [j]) = [j] := by
          simp [hj]
        rw [hf, dictLookup_insert_self, List.getLast?_append, List.getLast?_singleton]
        simp
      · have hf : (List.filter (fun j => decide (leadingNat ((ws.cells 1 j).value) = some q)) [j]) = [] := by
          simp [hj, hq]
        rw [hf, List.append_nil, dictLookup_insert_ne _ _ _ _ (by simpa using Ne.symm hq), ih]

theorem rowmap_fold_preserve (ws : Sheet) (rs : List Nat) (m : RMap) (key : LocKey) (v : Nat)
    (h : dictLookup m key = some v) :
    dictLookup
        (rs.foldl
          (fun m r =>
            match parse_locT ((ws.cells r 1).value) with
            | some k => if dictLookup m k = Option.none then dictInsert m k r else m
            | Option.none => m)
          m) key = some v := by
  induction rs generalizing m with
  | nil => simpa using h
  | cons r rest ih =>
    simp only [List.foldl_cons]
    rcases hr : parse_locT ((ws.cells r 1).value) with _ | k
    · exact ih m h
    · dsimp only
      by_cases hk : k = key
      · subst hk
        rw [h]
        simp only [reduceCtorEq, if_false]
        exact ih m h
      · by_cases habs : dictLookup m k = Option.none
        · rw [habs]
          simp only [if_true]
          exact ih _ (by rw [dictLookup_insert_ne _ _ _ _ (Ne.symm hk)]; exact h)
        · rw [if_neg habs]
          exact ih m h

theorem rowmap_fold_lookup (ws : Sheet) (rs : List Nat) (m : RMap) (key : LocKey)
    (h : dictLookup m key = Option.none) :
    dictLookup
        (rs.foldl
          (fun m r =>
            match parse_locT ((ws.cells r 1).value) with
            | some k => if dictLookup m k = Option.none then dictInsert m k r else m
            | Option.none => m)
          m) key =
      rs.find? (fun r => parse_locT ((ws.cells r 1).value) = some key) := by
  induction rs generalizing m with
  | nil => simpa using h
  | cons r rest ih =>
    simp only [List.foldl_cons]
    rcases hr : parse_locT ((ws.cells r 1).value) with _ | k
    · rw [List.find?_cons_of_neg _ (by simp [hr]), ih m h]
    · dsimp only
      by_cases hk : k = key
      · subst hk
        rw [h]
        simp only [if_true]
        rw [List.find?_cons_of_pos _ (by simp [hr])]
        exact rowmap_fold_preserve ws rest _ k r (dictLookup_insert_self m k r)
      · rw [List.find?_cons_of_neg _ (by simp [hr, hk])]
        by_cases habs : dictLookup m k = Option.none
        · rw [habs]
          simp only [if_true]
          exact ih _ (by rw [dictLookup_insert_ne _ _ _ _ (Ne.symm hk)]; exact h)
        · rw [if_neg habs]
          exact ih m h

/-- **C5.** The header index built from row 1 maps a question number to the
last (rightmost) column whose cell text starts with that number — a later
duplicate header overwrites an earlier one — while the row index maps a
location key to the first (topmost) data row whose column-A value parses
to that key — later duplicate locations are ignored. -/
theorem C5_index_tie_breaking :
    ∀ (ws : Sheet) (q : Nat) (key : LocKey),
      dictLookup (build_q_header_map ws) q =
        ((List.range' 1 ws.maxCol).filter fun j =>
          leadingNat ((ws.cells 1 j).value) = some q).getLast? ∧
      dictLookup (build_row_map ws) key =
        (List.range' 2 (ws.maxRow - 1)).find? fun r =>
          parse_locT ((ws.cells r 1).value) = some key := by
  intro ws q key
  constructor
  · rw [build_q_header_map, qheader_fold_lookup]
    simp [dictLookup]
  · rw [build_row_map, rowmap_fold_lookup]
    simp [dictLookup]

theorem clearRowCols_cells (cols : List Nat) (ws : Sheet) (r r' c' : Nat) :
    (clearRowCols ws r cols).cells r' c' =
      if r' = r ∧ c' ∈ cols then ⟨CellValue.none, Fill.noFill⟩ else ws.cells r' c' := by
  induction cols generalizing ws with
  | nil => simp [clearRowCols]
  | cons c rest ih =>
    show (clearRowCols (setCell ws r c CellValue.none Fill.noFill) r rest).cells r' c' = _
    rw [ih, setCell_cells]
    by_cases h1 : r' = r
    · subst h1
      by_cases h2 : c' ∈ rest
      · simp [h2]
      · by_cases h3 : c' = c <;> simp [h2, h3]
    · simp [h1]

theorem clearRowCols_title (cols : List Nat) (ws : Sheet) (r : Nat) :
    (clearRowCols ws r cols).title = ws.title := by
  induction cols generalizing ws with
  | nil => rfl
  | cons c rest ih => exact ih _

theorem clear_fold_cells (ws : Sheet) (cols : List Nat) :
    ∀ (rows : List Nat) (w : Sheet),
      rows.Nodup → (∀ r ∈ rows, w.cells r 1 = ws.cells r 1) →
      ∀ r c,
        ((rows.foldl
            (fun w r =>
              if parse_locT ((w.cells r 1).value) = Option.none then clearRowCols w r cols
              else w)
            w).cells r c) =
          if r ∈ rows ∧ parse_locT ((ws.cells r 1).value) = Option.none ∧ c ∈ cols
          then ⟨CellValue.none, Fill.noFill⟩
          else w.cells r c := by
  intro rows
  induction rows with
  | nil => simp
  | cons r0 rest ih =>
    intro w hnd hag r c
    obtain ⟨hr0, hndr⟩ := List.nodup_cons.mp hnd
    have hag0 : w.cells r0 1 = ws.cells r0 1 := hag r0 (List.mem_cons_self r0 rest)
    simp only [List.foldl_cons]
    by_cases hcond : parse_locT ((w.cells r0 1).value) = Option.none
    · have hcws : parse_locT ((ws.cells r0 1).value) = Option.none := by rw [← hag0]; exact hcond
      rw [if_pos hcond]
      have hag1 : ∀ r' ∈ rest, (clearRowCols w r0 cols).cells r' 1 = ws.cells r' 1 := by
        intro r' hr'
        rw [clearRowCols_cells]
        have : ¬(r' = r0 ∧ 1 ∈ cols) := by
          rintro ⟨rfl, -⟩
          exact hr0 hr'
        rw [if_neg this]
        exact hag r' (List.mem_cons_of_mem r0 hr')
      rw [ih _ hndr hag1, clearRowCols_cells]
      by_cases h1 : r ∈ rest ∧ parse_locT ((ws.cells r 1).value) = Option.none ∧ c ∈ cols
      · rw [if_pos h1, if_pos ⟨List.mem_cons_of_mem r0 h1.1, h1.2⟩]
      · rw [if_neg h1]
        by_cases h2 : r = r0 ∧ c ∈ cols
        · rw [if_pos h2, if_pos ⟨by simp [h2.1], by rw [h2.1]; exact hcws, h2.2⟩]
        · rw [if_neg h2]
          have : ¬(r ∈ r0 :: rest ∧ parse_locT ((ws.cells r 1).value) = Option.none ∧ c ∈ cols) := by
            rintro ⟨hmem, hloc, hc⟩
            rcases List.mem_cons.mp hmem with rfl | hmem'
            · exact h2 ⟨rfl, hc⟩
            · exact h1 ⟨hmem', hloc, hc⟩
          rw [if_neg this]
    · have hcws : ¬ parse_locT ((ws.cells r 1).value) = Option.none ∨ r ≠ r0 := by
        by_cases hrr : r = r0
        · left
          rw [hrr, ← hag0]
          exact hcond
        · right
          exact hrr
      rw [if_neg hcond]
      rw [ih _ hndr (fun r' hr' => hag r' (List.mem_cons_of_mem r0 hr'))]
      by_cases h1 : r ∈ rest ∧ parse_locT ((ws.cells r 1).value) = Option.none ∧ c ∈ cols
      · rw [if_pos h1, if_pos ⟨List.mem_cons_of_mem r0 h1.1, h1.2⟩]
      · rw [if_neg h1]
        have : ¬(r ∈ r0 :: rest ∧ parse_locT ((ws.cells r 1).value) = Option.none ∧ c ∈ cols) := by
          rintro ⟨hmem, hloc, hc⟩
          rcases List.mem_cons.mp hmem with rfl | hmem'
          · rcases hcws with hbad | hbad
            · exact hbad hloc
            · exact hbad rfl
          · exact h1 ⟨hmem', hloc, hc⟩
        rw [if_neg this]

/-- **C2.** The stale-row cleaner: a cell changes exactly when its row is a
data row (below the header, within the sheet extent) whose column-A value
does not parse as a location key and its column is listed in the header
index — such cells become empty with the fill removed — and every cell of
a row whose column-A value does parse as a location key is left unchanged,
whatever it contained. -/
theorem C2_clear_non_location_rows :
    ∀ (ws : Sheet) (qmap : QMap) (r c : Nat),
      (clear_non_location_rows ws qmap).cells r c =
        if 2 ≤ r ∧ r ≤ ws.maxRow ∧ parse_locT ((ws.cells r 1).value) = Option.none ∧
            c ∈ qmap.map Prod.snd
        then ⟨CellValue.none, Fill.noFill⟩
        else ws.cells r c := by
  intro ws qmap r c
  rw [clear_non_location_rows]
  by_cases hemp : (qmap.map Prod.snd).isEmpty
  · rw [if_pos hemp]
    have : qmap.map Prod.snd = [] := List.isEmpty_iff.mp hemp
    rw [this]
    simp
  · rw [if_neg hemp]
    rw [clear_fold_cells ws (qmap.map Prod.snd) (List.range' 2 (ws.maxRow - 1)) ws
      (List.nodup_range' 2 (ws.maxRow - 1) 1 Nat.one_pos) (fun _ _ => rfl)]
    have hmem : r ∈ List.range' 2 (ws.maxRow - 1) ↔ 2 ≤ r ∧ r ≤ ws.maxRow := by
      rw [List.mem_range'_1]
      omega
    by_cases h1 : r ∈ List.range' 2 (ws.maxRow - 1) ∧
        parse_locT ((ws.cells r 1).value) = Option.none ∧ c ∈ qmap.map Prod.snd
    · rw [if_pos h1, if_pos ⟨(hmem.mp h1.1).1, (hmem.mp h1.1).2, h1.2⟩]
    · rw [if_neg h1]
      have : ¬(2 ≤ r ∧ r ≤ ws.maxRow ∧ parse_locT ((ws.cells r 1).value) = Option.none ∧
          c ∈ qmap.map Prod.snd) := by
        rintro ⟨ha, hb, hc, hd⟩
        exact h1 ⟨hmem.mpr ⟨ha, hb⟩, hc, hd⟩
      rw [if_neg this]

theorem clear_fold_title (cols : List Nat) :
    ∀ (rows : List Nat) (w : Sheet),
      ((rows.foldl
          (fun w r =>
            if parse_locT ((w.cells r 1).value) = Option.none then clearRowCols w r cols
            else w)
          w).title) = w.title := by
  intro rows
  induction rows with
  | nil => intro w; rfl
  | cons r rest ih =>
    intro w
    simp only [List.foldl_cons]
    by_cases h : parse_locT ((w.cells r 1).value) = Option.none
    · rw [if_pos h, ih, clearRowCols_title]
    · rw [if_neg h, ih]

theorem clear_title (ws : Sheet) (qmap : QMap) :
    (clear_non_location_rows ws qmap).title = ws.title := by
  rw [clear_non_location_rows]
  by_cases hemp : (qmap.map Prod.snd).isEmpty
  · rw [if_pos hemp]
  · rw [if_neg hemp]
    exact clear_fold_title _ _ ws

theorem map_title_set :
    ∀ (l : List Sheet) (i : Nat) (s : Sheet),
      s.title = (l.getD i default).title →
      (l.set i s).map Sheet.title = l.map Sheet.title := by
  intro l
  induction l with
  | nil => intro i s _; rfl
  | cons ws rest ih =>
    intro i s h
    cases i with
    | zero =>
      simp only [List.getD, List.getElem?_cons_zero, Option.getD_some] at h
      simp [List.set, h]
    | succ i =>
      simp only [List.getD, List.getElem?_cons_succ] at h
      simp only [List.set, List.map_cons]
      rw [ih i s h]

theorem pickAux_titles (aliases : List (List Char)) :
    ∀ (l l' : List Sheet) (off : Nat),
      l.map Sheet.title = l'.map Sheet.title →
      pickAux aliases l off = pickAux aliases l' off := by
  intro l
  induction l with
  | nil =>
    intro l' off h
    cases l' with
    | nil => rfl
    | cons _ _ => simp at h
  | cons ws rest ih =>
    intro l' off h
    cases l' with
    | nil => simp at h
    | cons ws' rest' =>
      simp only [List.map_cons, List.cons.injEq] at h
      simp only [pickAux, h.1]
      by_cases hm : (aliases.any fun a => containsSub a (lowerL ws'.title.data)) = true
      · rw [if_pos hm, if_pos hm]
      · rw [if_neg hm, if_neg hm]
        exact ih rest' (off + 1) h.2

theorem pick_titles (wb wb' : Workbook) (kind : String)
    (h : wb.sheets.map Sheet.title = wb'.sheets.map Sheet.title) :
    pick_sheet_for_kind wb kind = pick_sheet_for_kind wb' kind :=
  pickAux_titles _ _ _ 0 h

theorem ensureStep_sheetCache (st : PState) (i : Nat) :
    (ensureStep st i).sheetCache = st.sheetCache := by
  rw [ensureStep]
  split_ifs <;> rfl

theorem ensureStep_resolveLog (st : PState) (i : Nat) :
    (ensureStep st i).resolveLog = st.resolveLog := by
  rw [ensureStep]
  split_ifs <;> rfl

theorem ensureStep_wb_titles (st : PState) (i : Nat) :
    (ensureStep st i).wb.sheets.map Sheet.title = st.wb.sheets.map Sheet.title := by
  rw [ensureStep]
  split_ifs <;>
    first
      | rfl
      | exact map_title_set _ _ _ (clear_title _ _)

theorem lookupWrite_sheetCache (st : PState) (e : Entry) (i : Nat) :
    (lookupWrite st e i).sheetCache = st.sheetCache := by
  rw [lookupWrite]
  rcases dictLookup ((dictLookup st.rowCache i).getD []) (e.block, e.level, e.side) with _ | row
  · rfl
  · rcases dictLookup ((dictLookup st.headerCache i).getD []) e.qnum with _ | col <;> rfl

theorem lookupWrite_resolveLog (st : PState) (e : Entry) (i : Nat) :
    (lookupWrite st e i).resolveLog = st.resolveLog := by
  rw [lookupWrite]
  rcases dictLookup ((dictLookup st.rowCache i).getD []) (e.block, e.level, e.side) with _ | row
  · rfl
  · rcases dictLookup ((dictLookup st.headerCache i).getD []) e.qnum with _ | col <;> rfl

theorem lookupWrite_wb_titles (st : PState) (e : Entry) (i : Nat) :
    (lookupWrite st e i).wb.sheets.map Sheet.title = st.wb.sheets.map Sheet.title := by
  rw [lookupWrite]
  rcases dictLookup ((dictLookup st.rowCache i).getD []) (e.block, e.level, e.side) with _ | row
  · rfl
  · rcases dictLookup ((dictLookup st.headerCache i).getD []) e.qnum with _ | col
    · rfl
    · exact map_title_set _ _ _ rfl

theorem processEntry_wb_titles (st : PState) (e : Entry) :
    (processEntry st e).wb.sheets.map Sheet.title = st.wb.sheets.map Sheet.title := by
  rw [processEntry]
  rcases h : resolveStep st e with ⟨st', ws⟩
  have hwb : st'.wb = st.wb := by
    rw [resolveStep] at h
    rcases hc : cacheGet st.sheetCache e.kind with _ | i
    · rw [hc] at h
      rcases hp : pick_sheet_for_kind st.wb e.kind with _ | i
      · rw [hp] at h
        cases h
        rfl
      · rw [hp] at h
        cases h
        rfl
    · rw [hc] at h
      cases h
      rfl
  rcases ws with _ | i
  · rw [hwb]
  · rw [lookupWrite_wb_titles, ensureStep_wb_titles, hwb]

theorem resolveStep_cached (st : PState) (e : Entry) (i : Nat)
    (h : cacheGet st.sheetCache e.kind = some i) :
    resolveStep st e = (st, some i) := by
  rw [resolveStep, h]

theorem resolveStep_fresh (st : PState) (e : Entry)
    (h : cacheGet st.sheetCache e.kind = Option.none) :
    (resolveStep st e).1.sheetCache =
        dictInsert st.sheetCache e.kind (pick_sheet_for_kind st.wb e.kind) ∧
      (resolveStep st e).1.resolveLog = st.resolveLog ++ [e.kind] := by
  rw [resolveStep, h]
  rcases pick_sheet_for_kind st.wb e.kind with _ | i <;> exact ⟨rfl, rfl⟩

theorem processEntry_sheetCache (st : PState) (e : Entry) :
    (processEntry st e).sheetCache = (resolveStep st e).1.sheetCache := by
  rw [processEntry]
  rcases h : resolveStep st e with ⟨st', ws⟩
  rcases ws with _ | i
  · rfl
  · rw [lookupWrite_sheetCache, ensureStep_sheetCache]

theorem processEntry_resolveLog (st : PState) (e : Entry) :
    (processEntry st e).resolveLog = (resolveStep st e).1.resolveLog := by
  rw [processEntry]
  rcases h : resolveStep st e with ⟨st', ws⟩
  rcases ws with _ | i
  · rfl
  · rw [lookupWrite_resolveLog, ensureStep_resolveLog]

theorem countLog_append (L : List String) (k' k : String) :
    ((L ++ [k']).filter fun x => x = k).length =
      (L.filter fun x => x = k).length + (if k' = k then 1 else 0) := by
  rw [List.filter_append]
  by_cases h : k' = k <;> simp [h]

theorem resolveInv_preserved (wb0 : Workbook) (k : String)
    (hfound : (pick_sheet_for_kind wb0 k).isSome)
    (st : PState) (e : Entry)
    (htitle : st.wb.sheets.map Sheet.title = wb0.sheets.map Sheet.title)
    (hinv : ResolveInv wb0 k st) :
    ResolveInv wb0 k (processEntry st e) := by
  have hcache := processEntry_sheetCache st e
  have hlog := processEntry_resolveLog st e
  rcases hc : cacheGet st.sheetCache e.kind with _ | i
  · obtain ⟨hc1, hc2⟩ := resolveStep_fresh st e hc
    by_cases hek : e.kind = k
    · subst hek
      rcases hinv with ⟨hlk, hct⟩ | ⟨hlk, hct⟩
      · right
        constructor
        · rw [hcache, hc1, dictLookup_insert_self, pick_titles st.wb wb0 e.kind htitle]
        · rw [resCount, hlog, hc2, countLog_append, if_pos rfl, ← resCount, hct]
      · exfalso
        rw [cacheGet, hlk] at hc
        rcases hp : pick_sheet_for_kind wb0 e.kind with _ | j
        · rw [hp] at hfound
          cases hfound
        · rw [hp] at hc
          cases hc
    · rcases hinv with ⟨hlk, hct⟩ | ⟨hlk, hct⟩
      · left
        constructor
        · rw [hcache, hc1, dictLookup_insert_ne _ _ _ _ (Ne.symm hek), hlk]
        · rw [resCount, hlog, hc2, countLog_append, if_neg hek, ← resCount, hct]
      · right
        constructor
        · rw [hcache, hc1, dictLookup_insert_ne _ _ _ _ (Ne.symm hek), hlk]
        · rw [resCount, hlog, hc2, countLog_append, if_neg hek, ← resCount, hct]
  · rw [resolveStep_cached st e i hc] at hcache hlog
    rw [ResolveInv, resCount, hlog, hcache]
    exact hinv

theorem resolve_found_le_one (wb0 : Workbook) (k : String)
    (hfound : (pick_sheet_for_kind wb0 k).isSome) :
    ∀ (entries : List Entry) (st : PState),
      st.wb.sheets.map Sheet.title = wb0.sheets.map Sheet.title →
      ResolveInv wb0 k st →
      resCount (entries.foldl processEntry st) k ≤ 1 := by
  intro entries
  induction entries with
  | nil =>
    intro st _ hinv
    rcases hinv with ⟨_, hct⟩ | ⟨_, hct⟩ <;> simp [hct]
  | cons e rest ih =>
    intro st htitle hinv
    simp only [List.foldl_cons]
    exact ih (processEntry st e)
      (by rw [processEntry_wb_titles, htitle])
      (resolveInv_preserved wb0 k hfound st e htitle hinv)

theorem resolve_notfound_per_entry (wb0 : Workbook) (k : String)
    (hnone : pick_sheet_for_kind wb0 k = Option.none) :
    ∀ (entries : List Entry) (st : PState),
      st.wb.sheets.map Sheet.title = wb0.sheets.map Sheet.title →
      CacheUnset k st →
      resCount (entries.foldl processEntry st) k =
        resCount st k + (entries.filter fun e => e.kind = k).length := by
  intro entries
  induction entries with
  | nil =>
    intro st _ _
    simp
  | cons e rest ih =>
    intro st htitle hunset
    simp only [List.foldl_cons]
    have hcache := processEntry_sheetCache st e
    have hlog := processEntry_resolveLog st e
    have htitle' : (processEntry st e).wb.sheets.map Sheet.title = wb0.sheets.map Sheet.title := by
      rw [processEntry_wb_titles, htitle]
    by_cases hek : e.kind = k
    · subst hek
      have hc : cacheGet st.sheetCache e.kind = Option.none := by
        rcases hunset with h | h <;> rw [cacheGet, h]
      obtain ⟨hc1, hc2⟩ := resolveStep_fresh st e hc
      have hpick : pick_sheet_for_kind st.wb e.kind = Option.none := by
        rw [pick_titles st.wb wb0 e.kind htitle, hnone]
      have hunset' : CacheUnset e.kind (processEntry st e) := by
        right
        rw [hcache, hc1, hpick, dictLookup_insert_self]
      have hcount' : resCount (processEntry st e) e.kind = resCount st e.kind + 1 := by
        rw [resCount, hlog, hc2, countLog_append, if_pos rfl, ← resCount]
      rw [ih (processEntry st e) htitle' hunset', hcount']
      simp only [List.filter_cons, decide_eq_true_eq, if_true]
      simp only [List.length_cons]
      omega
    · have hunset' : CacheUnset k (processEntry st e) := by
        rcases hc : cacheGet st.sheetCache e.kind with _ | i
        · obtain ⟨hc1, _⟩ := resolveStep_fresh st e hc
          rcases hunset with h | h
          · left
            rw [hcache, hc1, dictLookup_insert_ne _ _ _ _ (Ne.symm hek), h]
          · right
            rw [hcache, hc1, dictLookup_insert_ne _ _ _ _ (Ne.symm hek), h]
        · rw [resolveStep_cached st e i hc] at hcache
          rw [CacheUnset, hcache]
          exact hunset
      have hcount' : resCount (processEntry st e) k = resCount st k := by
        rcases hc : cacheGet st.sheetCache e.kind with _ | i
        · obtain ⟨_, hc2⟩ := resolveStep_fresh st e hc
          rw [resCount, hlog, hc2, countLog_append, if_neg hek, ← resCount]
          omega
        · rw [resolveStep_cached st e i hc] at hlog
          rw [resCount, hlog]
          rfl
      rw [ih (processEntry st e) htitle' hunset', hcount']
      simp only [List.filter_cons, decide_eq_true_eq]
      rw [if_neg hek]

/-- **C3 (counterexample).** With a workbook containing no brickwork
worksheet and two BW entries, `pick_sheet_for_kind` is called twice for
category BW in one run: the stored `None` is indistinguishable from an
absent cache entry, so resolution is *not* performed at most once when it
found no worksheet. -/
theorem C3_claim_counterexample :
    resCount (process [entryA3E 1, entryA3E 2] wbNoAlias) "BW" = 2 := by
  rfl

/-- **C3 (amended).** Worksheet resolution is performed at most once per
category whenever resolution succeeds (all later entries of the category
reuse the cached worksheet); but when resolution finds no worksheet it is
re-performed for every entry of that category — one call per such entry —
because the stored `None` reads back like a missing cache entry. -/
theorem C3_resolution_caching :
    ∀ (wb : Workbook) (entries : List Entry) (kind : String),
      ((pick_sheet_for_kind wb kind).isSome →
        resCount (process entries wb) kind ≤ 1) ∧
      (pick_sheet_for_kind wb kind = Option.none →
        resCount (process entries wb) kind =
          (entries.filter fun e => e.kind = kind).length) := by
  intro wb entries kind
  constructor
  · intro hfound
    exact resolve_found_le_one wb kind hfound entries (initState wb) rfl
      (Or.inl ⟨rfl, rfl⟩)
  · intro hnone
    have := resolve_notfound_per_entry wb kind hnone entries (initState wb) rfl
      (Or.inl rfl)
    simpa [resCount, initState] using this

/-- **C3 (witness).** The amended theorem applied to the brickwork
workbook (found: at most one resolution for two BW entries) and to the
aliasless workbook (not found: one resolution per BW entry). -/
theorem C3_resolution_caching_witness :
    resCount (process [entryA3E 1, entryA3E 2] wbBrick) "BW" ≤ 1 ∧
      resCount (process [entryA3E 1, entryA3E 2] wbNoAlias) "BW" =
        ([entryA3E 1, entryA3E 2].filter fun e => e.kind = "BW").length :=
  ⟨(C3_resolution_caching wbBrick [entryA3E 1, entryA3E 2] "BW").1 (by decide),
   (C3_resolution_caching wbNoAlias [entryA3E 1, entryA3E 2] "BW").2 (by decide)⟩

/-- **C6.** For an entry whose sheet resolution succeeded (`resolveStep`
returned a worksheet): when the row lookup misses, the entry is skipped
with the location-not-found reason and the state is exactly the
post-index/post-clear state with only that skip appended — in particular
no cell is written for the entry, whether or not the column lookup would
also have missed (the row is checked first, so a double miss reports only
the row reason); when the row is found but the column lookup misses, the
entry is skipped the same way with the question-number reason.  Processing
continues because the loop folds on with the returned state. -/
theorem C6_skip_reasons :
    ∀ (st : PState) (e : Entry) (st1 : PState) (i : Nat),
      resolveStep st e = (st1, some i) →
      (dictLookup ((dictLookup (ensureStep st1 i).rowCache i).getD [])
          (e.block, e.level, e.side) = Option.none →
        processEntry st e =
          { ensureStep st1 i with
            skipped := (ensureStep st1 i).skipped ++ [(e, Reason.locationNotFound)] }) ∧
      (∀ row,
        dictLookup ((dictLookup (ensureStep st1 i).rowCache i).getD [])
            (e.block, e.level, e.side) = some row →
        dictLookup ((dictLookup (ensureStep st1 i).headerCache i).getD []) e.qnum =
            Option.none →
        processEntry st e =
          { ensureStep st1 i with
            skipped := (ensureStep st1 i).skipped ++ [(e, Reason.qnumNotFound)] }) := by
  intro st e st1 i hres
  constructor
  · intro hrow
    rw [processEntry, hres]
    dsimp only
    rw [lookupWrite.eq_def]
    dsimp only
    rw [hrow]
  · intro row hrow hcol
    rw [processEntry, hres]
    dsimp only
    rw [lookupWrite.eq_def]
    dsimp only
    rw [hrow]
    dsimp only
    rw [hcol]

/-- **C6 (witness).** Both skip cases of the theorem instantiated on a
concrete brickwork workbook with a cached resolution: a BW entry whose
location is on no row, and one whose question number is in no header. -/
theorem C6_skip_reasons_witness :
    (processEntry ⟨wbBrick, [("BW", some 0)], [], [], [], 0, [], []⟩ entryNoLoc).skipped =
        [(entryNoLoc, Reason.locationNotFound)] ∧
      (processEntry ⟨wbBrick, [("BW", some 0)], [], [], [], 0, [], []⟩ entryNoQ).skipped =
        [(entryNoQ, Reason.qnumNotFound)] := by
  constructor
  · have h := (C6_skip_reasons ⟨wbBrick, [("BW", some 0)], [], [], [], 0, [], []⟩
      entryNoLoc ⟨wbBrick, [("BW", some 0)], [], [], [], 0, [], []⟩ 0 rfl).1 (by rfl)
    rw [h]
    rfl
  · have h := (C6_skip_reasons ⟨wbBrick, [("BW", some 0)], [], [], [], 0, [], []⟩
      entryNoQ ⟨wbBrick, [("BW", some 0)], [], [], [], 0, [], []⟩ 0 rfl).2 2 (by rfl) (by rfl)
    rw [h]
    rfl

theorem ensureStep_id (st : PState) (i : Nat)
    (h1 : (dictLookup st.headerCache i).isSome)
    (h2 : (dictLookup st.rowCache i).isSome)
    (h3 : i ∈ st.cleared) :
    ensureStep st i = st := by
  rw [ensureStep]
  rw [Option.isSome_iff_ne_none] at h1 h2
  simp only [Option.isNone_iff_eq_none, h1, h2, if_false, h3, if_true]

theorem getSheet_setSheet (wb : Workbook) (i : Nat) (s : Sheet)
    (h : i < wb.sheets.length) :
    getSheet (setSheet wb i s) i = s := by
  rw [getSheet, setSheet]
  rw [List.getD_eq_getElem?_getD, List.getElem?_set_self (by simpa using h)]
  rfl

/-- One successful loop iteration: with the worksheet cached, the indices
built and the sheet cleared, a hit on both lookups writes the count and
increments the counter, touching nothing else. -/
theorem processEntry_write (st : PState) (e : Entry) (i row col : Nat) (qm : QMap) (rm : RMap)
    (hc : cacheGet st.sheetCache e.kind = some i)
    (hq : dictLookup st.headerCache i = some qm)
    (hr : dictLookup st.rowCache i = some rm)
    (hcl : i ∈ st.cleared)
    (hrow : dictLookup rm (e.block, e.level, e.side) = some row)
    (hcol : dictLookup qm e.qnum = some col) :
    processEntry st e =
      { st with
        wb := setSheet st.wb i (write_one (getSheet st.wb i) row col e.count)
        written := st.written + 1 } := by
  have hid : ensureStep st i = st :=
    ensureStep_id st i (by rw [hq]; rfl) (by rw [hr]; rfl) hcl
  rw [processEntry, resolveStep_cached st e i hc]
  dsimp only
  rw [hid, lookupWrite.eq_def, hq, hr]
  dsimp only [Option.getD_some]
  rw [hrow]
  dsimp only
  rw [hcol]

/-- **C10.** When two entries resolve to the same worksheet, row and
column (stated here from a state whose caches already hold that sheet's
indices), the cell after processing both holds the value and fill derived
from the second entry alone — each write overwrites the cell
unconditionally — and no accumulation happens, no skip or warning is
recorded, and both writes count as successes. -/
theorem C10_last_write_wins :
    ∀ (st : PState) (e1 e2 : Entry) (i row col : Nat) (qm : QMap) (rm : RMap),
      i < st.wb.sheets.length →
      cacheGet st.sheetCache e1.kind = some i →
      cacheGet st.sheetCache e2.kind = some i →
      dictLookup st.headerCache i = some qm →
      dictLookup st.rowCache i = some rm →
      i ∈ st.cleared →
      dictLookup rm (e1.block, e1.level, e1.side) = some row →
      dictLookup qm e1.qnum = some col →
      dictLookup rm (e2.block, e2.level, e2.side) = some row →
      dictLookup qm e2.qnum = some col →
      (getSheet (processEntry (processEntry st e1) e2).wb i).cells row col =
          ⟨CellValue.int e2.count, color_fill_for_count e2.count⟩ ∧
        (processEntry (processEntry st e1) e2).skipped = st.skipped ∧
        (processEntry (processEntry st e1) e2).written = st.written + 2 := by
  intro st e1 e2 i row col qm rm hlen hc1 hc2 hq hr hcl hrow1 hcol1 hrow2 hcol2
  have hst1 := processEntry_write st e1 i row col qm rm hc1 hq hr hcl hrow1 hcol1
  have hst2 := processEntry_write
    { st with
      wb := setSheet st.wb i (write_one (getSheet st.wb i) row col e1.count)
      written := st.written + 1 }
    e2 i row col qm rm hc2 hq hr hcl hrow2 hcol2
  rw [hst1, hst2]
  refine ⟨?_, rfl, rfl⟩
  rw [getSheet_setSheet _ i _ (by simpa [setSheet] using hlen)]
  rw [write_one, setCell_cells, if_pos ⟨rfl, rfl⟩]

/-- **C10 (witness).** Two BW entries targeting the same cell: counts 3
then 25 leave the cell holding 25 with the green fill, two successes and
no skip. -/
theorem C10_last_write_wins_witness :
    (getSheet (processEntry (processEntry
        ⟨wbBrick, [("BW", some 0)], [(0, [(4, 4)])], [(0, [(('A', 3, Side.east), 2)])],
          [0], 0, [], []⟩ (entryA3E 3)) (entryA3E 25)).wb 0).cells 2 4 =
        ⟨CellValue.int 25, color_fill_for_count 25⟩ ∧
      (processEntry (processEntry
        ⟨wbBrick, [("BW", some 0)], [(0, [(4, 4)])], [(0, [(('A', 3, Side.east), 2)])],
          [0], 0, [], []⟩ (entryA3E 3)) (entryA3E 25)).skipped = [] ∧
      (processEntry (processEntry
        ⟨wbBrick, [("BW", some 0)], [(0, [(4, 4)])], [(0, [(('A', 3, Side.east), 2)])],
          [0], 0, [], []⟩ (entryA3E 3)) (entryA3E 25)).written = 0 + 2 :=
  C10_last_write_wins
    ⟨wbBrick, [("BW", some 0)], [(0, [(4, 4)])], [(0, [(('A', 3, Side.east), 2)])],
      [0], 0, [], []⟩
    (entryA3E 3) (entryA3E 25) 0 2 4 [(4, 4)] [(('A', 3, Side.east), 2)]
    (by decide) rfl rfl rfl rfl (by decide) rfl rfl rfl rfl

theorem mkGroups_level (b : Char) (lg : LevelG) (sd : Side) :
    (mkGroups b lg sd).gl = Option.none →
      ((mkGroups b lg sd).lvl2 <|> (mkGroups b lg sd).lvl1 <|> (mkGroups b lg sd).lvl0).isSome =
        true := by
  cases lg <;> intro h <;> simp [mkGroups] at h ⊢

theorem blockAt_shape (l : List Char) (g : LocGroups) (h : blockAt l = some g) :
    ∃ b lg sd, g = mkGroups b lg sd := by
  rw [blockAt] at h
  rcases h1 : takeLitCI "block".data l with _ | l1
  · rw [h1] at h
    cases h
  · rw [h1] at h
    dsimp only at h
    rcases h2 : takeSpaces1 l1 with _ | l2
    · rw [h2] at h
      cases h
    · rw [h2] at h
      dsimp only at h
      rcases l2 with _ | ⟨b, l3⟩
      · cases h
      · dsimp only at h
        by_cases h3 : (isAlphaC b && boundaryB l3) = true
        · rw [if_pos h3] at h
          rcases h4 : lazyScan b l3 with _ | p
          · rw [h4] at h
            cases h
          · rw [h4] at h
            cases h
            exact ⟨b, p.1, p.2, rfl⟩
        · rw [if_neg h3] at h
          cases h

theorem locSearch_shape (l : List Char) (g : LocGroups) (h : locSearch l = some g) :
    ∃ b lg sd, g = mkGroups b lg sd := by
  induction l with
  | nil => cases h
  | cons c rest ih =>
    rw [locSearch] at h
    rcases h1 : blockAt (c :: rest) with _ | g'
    · rw [h1] at h
      simp only [Option.none_orElse] at h
      exact ih h
    · rw [h1] at h
      simp only [Option.some_orElse] at h
      cases h
      exact blockAt_shape _ _ h1

/-- **C8.** Location-label parsing is total: every cell value — including
every non-string value, which always yields "no match" — produces an
`ok` result and never the error that models the `StopIteration` a
group-less match would raise; the reason is the matcher invariant, proved
alongside, that a match without the ground-level group always carries at
least one numeric level group. -/
theorem C8_parse_loc_total :
    ∀ v : CellValue,
      (∃ r, parse_loc v = Except.ok r) ∧
      (isStrV v = false → parse_loc v = Except.ok Option.none) ∧
      (∀ (l : List Char) (g : LocGroups),
        locSearch l = some g → g.gl = Option.none →
        (g.lvl2 <|> g.lvl1 <|> g.lvl0).isSome = true) := by
  intro v
  have hinv : ∀ (l : List Char) (g : LocGroups),
      locSearch l = some g → g.gl = Option.none →
      (g.lvl2 <|> g.lvl1 <|> g.lvl0).isSome = true := by
    intro l g h hgl
    obtain ⟨b, lg, sd, rfl⟩ := locSearch_shape l g h
    exact mkGroups_level b lg sd hgl
  refine ⟨?_, ?_, hinv⟩
  · rcases v with _ | s | n | b
    · exact ⟨Option.none, rfl⟩
    · rw [parse_loc]
      rcases h : locSearch s.data with _ | g
      · exact ⟨Option.none, rfl⟩
      · dsimp only
        rcases hgl : g.gl with _ | u
        · have := hinv s.data g h hgl
          rcases hlv : (g.lvl2 <|> g.lvl1 <|> g.lvl0) with _ | ds
          · rw [hlv] at this
            cases this
          · exact ⟨some (upperC g.block, natOfDigits ds, g.side), rfl⟩
        · exact ⟨some (upperC g.block, 0, g.side), rfl⟩
    · exact ⟨Option.none, rfl⟩
    · exact ⟨Option.none, rfl⟩
  · intro hs
    rcases v with _ | s | n | b
    · rfl
    · cases hs
    · rfl
    · rfl

/-- **C8 (witness).** The theorem instantiated at a matching text label, a
non-string value, and the concrete groups the matcher returns for that
label. -/
theorem C8_parse_loc_total_witness :
    (∃ r, parse_loc (CellValue.str "Block A L5 / East Elevation") = Except.ok r) ∧
      parse_loc (CellValue.int 7) = Except.ok Option.none ∧
      ((⟨'A', Option.none, Option.none, Option.none, some ['5'], Side.east⟩ : LocGroups).lvl2 <|>
        (⟨'A', Option.none, Option.none, Option.none, some ['5'], Side.east⟩ : LocGroups).lvl1 <|>
        (⟨'A', Option.none, Option.none, Option.none, some ['5'], Side.east⟩ : LocGroups).lvl0).isSome =
        true :=
  ⟨(C8_parse_loc_total (CellValue.str "Block A L5 / East Elevation")).1,
   (C8_parse_loc_total (CellValue.int 7)).2.1 rfl,
   (C8_parse_loc_total (CellValue.int 7)).2.2 "Block A L5 / East Elevation".data
     ⟨'A', Option.none, Option.none, Option.none, some ['5'], Side.east⟩ (by rfl) rfl⟩

/-- **C4 (counterexample).** The claim "for a label containing
`<d1>-Level <d2>` the extracted level equals `d2`" fails as stated: this
label contains `3-Level 4`, yet the lazy scan reaches the `L5` clause at
an earlier position (alternative 4), so the extracted level is 5, not 4. -/
theorem C4_claim_counterexample :
    containsSub "3-Level 4".data "Block A L5 3-Level 4 / East Elevation".data = true ∧
      parse_locT (CellValue.str "Block A L5 3-Level 4 / East Elevation") =
        some ('A', 5, Side.east) := by
  constructor
  · decide
  · rfl

/-! ### Character-class facts used by the line-grammar equivalence -/

theorem space_cases (c : Char) (h : isSpaceC c = true) :
    c = ' ' ∨ c = '\t' ∨ c = '\n' ∨ c = '\r' ∨ c = '\x0b' ∨ c = '\x0c' := by
  simp [isSpaceC] at h
  tauto

theorem space_not_digit (c : Char) (h : isSpaceC c = true) : isDigitC c = false := by
  rcases space_cases c h with rfl | rfl | rfl | rfl | rfl | rfl <;> decide

theorem space_not_alpha (c : Char) (h : isSpaceC c = true) : isAlphaC c = false := by
  rcases space_cases c h with rfl | rfl | rfl | rfl | rfl | rfl <;> decide

theorem space_lower_self (c : Char) (h : isSpaceC c = true) : lowerC c = c := by
  rcases space_cases c h with rfl | rfl | rfl | rfl | rfl | rfl <;> decide

theorem digit_not_space (c : Char) (h : isDigitC c = true) : isSpaceC c = false := by
  cases hs : isSpaceC c
  · rfl
  · rw [space_not_digit c hs] at h
    cases h

theorem alpha_not_space (c : Char) (h : isAlphaC c = true) : isSpaceC c = false := by
  cases hs : isSpaceC c
  · rfl
  · rw [space_not_alpha c hs] at h
    cases h

theorem lower_not_space (c x : Char) (h : lowerC c = x) (hx : isSpaceC x = false) :
    isSpaceC c = false := by
  cases hs : isSpaceC c
  · rfl
  · rw [space_lower_self c hs] at h
    rw [← h] at hx
    rw [hs] at hx
    cases hx

theorem digit_word (c : Char) (h : isDigitC c = true) : isWordC c = true := by
  simp [isWordC, h]

theorem not_word_not_digit (c : Char) (h : isWordC c = false) : isDigitC c = false := by
  cases hd : isDigitC c
  · rfl
  · rw [digit_word c hd] at h
    cases h

theorem eqCI_cons (w : List Char) (x : Char) (xs : List Char) (h : lowerL w = x :: xs) :
    ∃ c cs, w = c :: cs ∧ lowerC c = x ∧ lowerL cs = xs := by
  cases w with
  | nil => cases h
  | cons c cs =>
    rw [lowerL, List.map_cons] at h
    injection h with h1 h2
    exact ⟨c, cs, rfl, h1, h2⟩

/-! ### Soundness and completeness of the splitting primitives -/

theorem spanC_append (p : Char → Bool) (a b : List Char)
    (ha : ∀ c ∈ a, p c = true) (hb : headNotP p b = true) :
    spanC p (a ++ b) = (a, b) := by
  induction a with
  | nil =>
    cases b with
    | nil => rfl
    | cons c cs =>
      simp only [headNotP, Bool.not_eq_true'] at hb
      rw [List.nil_append, spanC, hb]
      simp
  | cons c cs ih =>
    rw [List.cons_append, spanC, ha c (List.mem_cons_self c cs), if_pos rfl]
    dsimp only
    rw [ih (fun x hx => ha x (List.mem_cons_of_mem c hx))]

theorem spanC_sound (p : Char → Bool) (l : List Char) :
    l = (spanC p l).1 ++ (spanC p l).2 ∧ (∀ c ∈ (spanC p l).1, p c = true) ∧
      headNotP p (spanC p l).2 = true := by
  induction l with
  | nil => exact ⟨rfl, by simp [spanC], rfl⟩
  | cons c cs ih =>
    rw [spanC]
    cases hp : p c
    · refine ⟨rfl, by simp, ?_⟩
      show (!p c) = true
      rw [hp]
      rfl
    · obtain ⟨ih1, ih2, ih3⟩ := ih
      rw [if_pos rfl]
      dsimp only
      refine ⟨?_, ?_, ih3⟩
      · rw [List.cons_append, ← ih1]
      · intro x hx
        rcases List.mem_cons.mp hx with rfl | hx'
        · exact hp
        · exact ih2 x hx'

theorem dropSpaces_append (sp r : List Char) (h : allSpaceB sp = true)
    (hr : headNotP isSpaceC r = true) : dropSpaces (sp ++ r) = r := by
  rw [dropSpaces, spanC_append isSpaceC sp r (by simpa [allSpaceB, List.all_eq_true] using h) hr]

theorem dropSpaces_sound (l : List Char) :
    ∃ sp, l = sp ++ dropSpaces l ∧ allSpaceB sp = true ∧
      headNotP isSpaceC (dropSpaces l) = true := by
  obtain ⟨h1, h2, h3⟩ := spanC_sound isSpaceC l
  exact ⟨(spanC isSpaceC l).1, h1, by simpa [allSpaceB, List.all_eq_true] using h2, h3⟩

theorem takeSpaces1_complete (sp r : List Char) (h : Spaces1 sp)
    (hr : headNotP isSpaceC r = true) : takeSpaces1 (sp ++ r) = some r := by
  rw [takeSpaces1, spanC_append isSpaceC sp r (by simpa [allSpaceB, List.all_eq_true] using h.1) hr]
  obtain ⟨c, cs, rfl⟩ := List.exists_cons_of_ne_nil h.2
  rfl

theorem takeSpaces1_sound (l r : List Char) (h : takeSpaces1 l = some r) :
    ∃ sp, l = sp ++ r ∧ Spaces1 sp := by
  rw [takeSpaces1] at h
  obtain ⟨h1, h2, h3⟩ := spanC_sound isSpaceC l
  rcases hs : spanC isSpaceC l with ⟨a, b⟩
  rw [hs] at h h1 h2
  cases a with
  | nil => cases h
  | cons c cs =>
    injection h with h4
    subst h4
    exact ⟨c :: cs, h1, by simpa [allSpaceB, List.all_eq_true] using h2, by simp⟩

theorem takeDigits1_complete (d r : List Char) (h : Digits1 d)
    (hr : headNotP isDigitC r = true) : takeDigits1 (d ++ r) = some (d, r) := by
  rw [takeDigits1, spanC_append isDigitC d r (by simpa [allDigitB, List.all_eq_true] using h.1) hr]
  obtain ⟨c, cs, rfl⟩ := List.exists_cons_of_ne_nil h.2
  rfl

theorem takeDigits1_sound (l d r : List Char) (h : takeDigits1 l = some (d, r)) :
    l = d ++ r ∧ Digits1 d ∧ headNotP isDigitC r = true := by
  rw [takeDigits1] at h
  obtain ⟨h1, h2, h3⟩ := spanC_sound isDigitC l
  rcases hs : spanC isDigitC l with ⟨a, b⟩
  rw [hs] at h h1 h2 h3
  cases a with
  | nil => cases h
  | cons c cs =>
    injection h with h4
    rw [Prod.mk.injEq] at h4
    obtain ⟨hd, hr2⟩ := h4
    subst hd
    subst hr2
    exact ⟨h1, ⟨by simpa [allDigitB, List.all_eq_true] using h2, by simp⟩, h3⟩

theorem takeLitCI_complete (lit w r : List Char) (h : EqCI w lit) :
    takeLitCI lit (w ++ r) = some r := by
  induction lit generalizing w with
  | nil =>
    cases w with
    | nil => rfl
    | cons c cs => cases h
  | cons x xs ih =>
    obtain ⟨c, cs, rfl, hc, hcs⟩ := eqCI_cons w x xs h
    rw [List.cons_append, takeLitCI, if_pos hc]
    exact ih cs hcs

theorem takeLitCI_sound (lit : List Char) :
    ∀ l r, takeLitCI lit l = some r → ∃ w, l = w ++ r ∧ EqCI w lit := by
  induction lit with
  | nil =>
    intro l r h
    rw [takeLitCI] at h
    injection h with h1
    exact ⟨[], by rw [h1]; rfl, rfl⟩
  | cons x xs ih =>
    intro l r h
    cases l with
    | nil => cases h
    | cons c cs =>
      rw [takeLitCI] at h
      by_cases hc : lowerC c = x
      · rw [if_pos hc] at h
        obtain ⟨w, hw, hciw⟩ := ih cs r h
        refine ⟨c :: w, by rw [List.cons_append, hw], ?_⟩
        rw [EqCI, lowerL, List.map_cons, hc]
        exact congrArg (fun t => x :: t) hciw
      · rw [if_neg hc] at h
        cases h

theorem takeChar_complete (x : Char) (r : List Char) : takeChar x (x :: r) = some r := by
  rw [takeChar, if_pos rfl]

theorem takeChar_sound (x : Char) (l r : List Char) (h : takeChar x l = some r) :
    l = x :: r := by
  cases l with
  | nil => cases h
  | cons c cs =>
    rw [takeChar] at h
    by_cases hc : c = x
    · rw [if_pos hc] at h
      injection h with h1
      rw [hc, h1]
    · rw [if_neg hc] at h
      cases h

theorem allSpaceB_cons_iff (c : Char) (cs : List Char) :
    allSpaceB (c :: cs) = true ↔ isSpaceC c = true ∧ allSpaceB cs = true := by
  simp [allSpaceB]

theorem allDigitB_cons_iff (c : Char) (cs : List Char) :
    allDigitB (c :: cs) = true ↔ isDigitC c = true ∧ allDigitB cs = true := by
  simp [allDigitB]

theorem noNewlineB_cons_iff (c : Char) (cs : List Char) :
    noNewlineB (c :: cs) = true ↔ c ≠ '\n' ∧ noNewlineB cs = true := by
  simp [noNewlineB]

theorem spaces1_head_not_digit (sp r : List Char) (h : Spaces1 sp) :
    headNotP isDigitC (sp ++ r) = true := by
  obtain ⟨c, cs, rfl⟩ := List.exists_cons_of_ne_nil h.2
  have hc : isSpaceC c = true := ((allSpaceB_cons_iff c cs).mp h.1).1
  show (!isDigitC c) = true
  rw [space_not_digit c hc]
  rfl

theorem digits1_head_not_space (d r : List Char) (h : Digits1 d) :
    headNotP isSpaceC (d ++ r) = true := by
  obtain ⟨c, cs, rfl⟩ := List.exists_cons_of_ne_nil h.2
  have hc : isDigitC c = true := ((allDigitB_cons_iff c cs).mp h.1).1
  show (!isSpaceC c) = true
  rw [digit_not_space c hc]
  rfl

theorem eqCI_head_not_space (w lit r : List Char) (x : Char) (xs : List Char)
    (h : EqCI w lit) (hl : lit = x :: xs) (hx : isSpaceC x = false) :
    headNotP isSpaceC (w ++ r) = true := by
  subst hl
  obtain ⟨c, cs, rfl, hc, -⟩ := eqCI_cons w x xs h
  show (!isSpaceC c) = true
  rw [lower_not_space c x hc hx]
  rfl

theorem boundary_head_not_digit (l : List Char) (h : boundaryB l = true) :
    headNotP isDigitC l = true := by
  cases l with
  | nil => rfl
  | cons c cs =>
    rw [boundaryB, Bool.not_eq_true'] at h
    show (!isDigitC c) = true
    rw [not_word_not_digit c h]
    rfl

theorem takeLitCI_head_ne (x : Char) (ps : List Char) (c : Char) (cs : List Char)
    (h : lowerC c ≠ x) : takeLitCI (x :: ps) (c :: cs) = Option.none := by
  rw [takeLitCI, if_neg h]

theorem takeSideLine_complete (sd r : List Char)
    (h : EqCI sd "north".data ∨ EqCI sd "south".data ∨ EqCI sd "east".data ∨
      EqCI sd "west".data) :
    ∃ s, takeSideLine (sd ++ r) = some (s, r) := by
  rcases h with h | h | h | h
  · refine ⟨Side.north, ?_⟩
    rw [takeSideLine, takeLitCI_complete _ sd r h]
  · obtain ⟨c, cs, rfl, hc, -⟩ := eqCI_cons sd 's' "outh".data h
    refine ⟨Side.south, ?_⟩
    rw [takeSideLine, List.cons_append,
      takeLitCI_head_ne 'n' "orth".data c _ (by rw [hc]; decide), ← List.cons_append,
      takeLitCI_complete _ (c :: cs) r h]
  · obtain ⟨c, cs, rfl, hc, -⟩ := eqCI_cons sd 'e' "ast".data h
    refine ⟨Side.east, ?_⟩
    rw [takeSideLine, List.cons_append,
      takeLitCI_head_ne 'n' "orth".data c _ (by rw [hc]; decide),
      takeLitCI_head_ne 's' "outh".data c _ (by rw [hc]; decide), ← List.cons_append,
      takeLitCI_complete _ (c :: cs) r h]
  · obtain ⟨c, cs, rfl, hc, -⟩ := eqCI_cons sd 'w' "est".data h
    refine ⟨Side.west, ?_⟩
    rw [takeSideLine, List.cons_append,
      takeLitCI_head_ne 'n' "orth".data c _ (by rw [hc]; decide),
      takeLitCI_head_ne 's' "outh".data c _ (by rw [hc]; decide),
      takeLitCI_head_ne 'e' "ast".data c _ (by rw [hc]; decide), ← List.cons_append,
      takeLitCI_complete _ (c :: cs) r h]

theorem takeSideLine_sound (l : List Char) (s : Side) (r : List Char)
    (h : takeSideLine l = some (s, r)) :
    ∃ sd, l = sd ++ r ∧
      (EqCI sd "north".data ∨ EqCI sd "south".data ∨ EqCI sd "east".data ∨
        EqCI sd "west".data) := by
  rw [takeSideLine] at h
  rcases h1 : takeLitCI "north".data l with _ | r1
  all_goals rw [h1] at h
  case some =>
    injection h with h'
    rw [Prod.mk.injEq] at h'
    obtain ⟨w, hw, hci⟩ := takeLitCI_sound _ _ _ h1
    exact ⟨w, by rw [hw, h'.2], Or.inl hci⟩
  rcases h2 : takeLitCI "south".data l with _ | r2
  all_goals rw [h2] at h
  case some =>
    injection h with h'
    rw [Prod.mk.injEq] at h'
    obtain ⟨w, hw, hci⟩ := takeLitCI_sound _ _ _ h2
    exact ⟨w, by rw [hw, h'.2], Or.inr (Or.inl hci)⟩
  rcases h3 : takeLitCI "east".data l with _ | r3
  all_goals rw [h3] at h
  case some =>
    injection h with h'
    rw [Prod.mk.injEq] at h'
    obtain ⟨w, hw, hci⟩ := takeLitCI_sound _ _ _ h3
    exact ⟨w, by rw [hw, h'.2], Or.inr (Or.inr (Or.inl hci))⟩
  rcases h4 : takeLitCI "west".data l with _ | r4
  all_goals rw [h4] at h
  case some =>
    injection h with h'
    rw [Prod.mk.injEq] at h'
    obtain ⟨w, hw, hci⟩ := takeLitCI_sound _ _ _ h4
    exact ⟨w, by rw [hw, h'.2], Or.inr (Or.inr (Or.inr hci))⟩
  cases h

theorem takeKind_complete (kd r : List Char)
    (h : EqCI kd "bw".data ∨ EqCI kd "sr".data) :
    ∃ k, takeKind (kd ++ r) = some (k, r) := by
  rcases h with h | h
  · refine ⟨"BW", ?_⟩
    rw [takeKind, takeLitCI_complete _ kd r h]
  · obtain ⟨c, cs, rfl, hc, -⟩ := eqCI_cons kd 's' "r".data h
    refine ⟨"SR", ?_⟩
    rw [takeKind, List.cons_append,
      takeLitCI_head_ne 'b' "w".data c _ (by rw [hc]; decide), ← List.cons_append,
      takeLitCI_complete _ (c :: cs) r h]

theorem takeKind_sound (l : List Char) (k : String) (r : List Char)
    (h : takeKind l = some (k, r)) :
    ∃ kd, l = kd ++ r ∧ (EqCI kd "bw".data ∨ EqCI kd "sr".data) := by
  rw [takeKind] at h
  rcases h1 : takeLitCI "bw".data l with _ | r1
  all_goals rw [h1] at h
  case some =>
    injection h with h'
    rw [Prod.mk.injEq] at h'
    obtain ⟨w, hw, hci⟩ := takeLitCI_sound _ _ _ h1
    exact ⟨w, by rw [hw, h'.2], Or.inl hci⟩
  rcases h2 : takeLitCI "sr".data l with _ | r2
  all_goals rw [h2] at h
  case some =>
    injection h with h'
    rw [Prod.mk.injEq] at h'
    obtain ⟨w, hw, hci⟩ := takeLitCI_sound _ _ _ h2
    exact ⟨w, by rw [hw, h'.2], Or.inr hci⟩
  cases h

theorem takeLevel_complete (d sp r : List Char) (hd : Digits1 d) (hlen : d.length ≤ 2)
    (hsp : Spaces1 sp) (hr : headNotP isSpaceC r = true) :
    takeLevel (d ++ (sp ++ r)) = some (natOfDigits d, r) := by
  rw [takeLevel, takeDigits1_complete d (sp ++ r) hd (spaces1_head_not_digit sp r hsp)]
  dsimp only
  rw [if_pos hlen, takeSpaces1_complete sp r hsp hr]

theorem takeLevel_sound (l : List Char) (n : Nat) (r : List Char)
    (h : takeLevel l = some (n, r)) :
    ∃ d sp, l = d ++ (sp ++ r) ∧ Digits1 d ∧ d.length ≤ 2 ∧ Spaces1 sp := by
  rw [takeLevel] at h
  rcases h1 : takeDigits1 l with _ | ⟨d, r1⟩
  all_goals rw [h1] at h
  case none => cases h
  obtain ⟨hl, hd, -⟩ := takeDigits1_sound l d r1 h1
  dsimp only at h
  by_cases hlen : d.length ≤ 2
  · rw [if_pos hlen] at h
    rcases h2 : takeSpaces1 r1 with _ | r2 <;> rw [h2] at h
    · cases h
    · injection h with h'
      rw [Prod.mk.injEq] at h'
      obtain ⟨sp, hsp1, hsp2⟩ := takeSpaces1_sound r1 r2 h2
      refine ⟨d, sp, ?_, hd, hlen, hsp2⟩
      rw [hl, hsp1, h'.2]
  · rw [if_neg hlen] at h
    cases h

theorem qnumAt_complete (l : List Char) (h : QnumTail l) : ∃ q, qnumAt l = some q := by
  obtain ⟨sp, qd, rest, rfl, hsp, hq, hb⟩ := h
  rw [qnumAt]
  rw [dropSpaces_append sp _ hsp (digits1_head_not_space qd rest hq)]
  rw [takeDigits1_complete qd rest hq (boundary_head_not_digit rest hb)]
  dsimp only
  rw [if_pos hb]
  exact ⟨natOfDigits qd, rfl⟩

theorem qnumAt_sound (l : List Char) (q : Nat) (h : qnumAt l = some q) : QnumTail l := by
  rw [qnumAt] at h
  obtain ⟨sp, hl, hsp, -⟩ := dropSpaces_sound l
  rcases h1 : takeDigits1 (dropSpaces l) with _ | ⟨d, r1⟩
  all_goals rw [h1] at h
  case none => cases h
  dsimp only at h
  by_cases hb : boundaryB r1 = true
  · obtain ⟨hdec, hd, -⟩ := takeDigits1_sound _ d r1 h1
    exact ⟨sp, d, r1, by rw [hl, hdec], hsp, hd, hb⟩
  · rw [if_neg hb] at h
    cases h

theorem findSlashQnum_sound (l : List Char) :
    ∀ q, findSlashQnum l = some q → SlashQnumTail l := by
  induction l with
  | nil => intro q h; cases h
  | cons c rest ih =>
    intro q h
    rw [findSlashQnum] at h
    by_cases hc : c = '/'
    · rw [if_pos hc] at h
      rcases hq : qnumAt rest with _ | q'
      · rw [hq] at h
        obtain ⟨free, r2, heq, hnn, hqt⟩ := ih q h
        refine ⟨c :: free, r2, by rw [heq, List.cons_append], ?_, hqt⟩
        rw [noNewlineB_cons_iff]
        exact ⟨by rw [hc]; decide, hnn⟩
      · rw [hq] at h
        exact ⟨[], rest, by rw [hc, List.nil_append], rfl, qnumAt_sound rest q' hq⟩
    · rw [if_neg hc] at h
      by_cases hn : c = '\n'
      · rw [if_pos hn] at h
        cases h
      · rw [if_neg hn] at h
        obtain ⟨free, r2, heq, hnn, hqt⟩ := ih q h
        refine ⟨c :: free, r2, by rw [heq, List.cons_append], ?_, hqt⟩
        rw [noNewlineB_cons_iff]
        exact ⟨hn, hnn⟩

theorem findSlashQnum_complete :
    ∀ (free rest : List Char), noNewlineB free = true → QnumTail rest →
      ∃ q, findSlashQnum (free ++ '/' :: rest) = some q := by
  intro free
  induction free with
  | nil =>
    intro rest _ hq
    obtain ⟨q, hqa⟩ := qnumAt_complete rest hq
    rw [List.nil_append, findSlashQnum, if_pos rfl, hqa]
    exact ⟨q, rfl⟩
  | cons c free' ih =>
    intro rest hnn hq
    obtain ⟨hc, hnn'⟩ := (noNewlineB_cons_iff c free').mp hnn
    rw [List.cons_append, findSlashQnum]
    by_cases hsl : c = '/'
    · rw [if_pos hsl]
      rcases hqa : qnumAt (free' ++ '/' :: rest) with _ | q'
      · obtain ⟨q, hrec⟩ := ih rest hnn' hq
        rw [hrec]
        exact ⟨q, rfl⟩
      · exact ⟨q', rfl⟩
    · rw [if_neg hsl, if_neg hc]
      exact ih rest hnn' hq

theorem lineFromSide_sound (cnt : List Char) (b : Char) (lvl : Nat) (l : List Char) (e : Entry)
    (h : lineFromSide cnt b lvl l = some e) : SideTail l := by
  rw [lineFromSide] at h
  rcases h1 : takeSideLine l with _ | ⟨sd, l1⟩ <;> rw [h1] at h
  · cases h
  · dsimp only at h
    rcases h2 : takeSpaces1 l1 with _ | l2 <;> rw [h2] at h
    · cases h
    · dsimp only at h
      rcases h3 : takeKind l2 with _ | ⟨kd, l3⟩ <;> rw [h3] at h
      · cases h
      · dsimp only at h
        by_cases hb : boundaryB l3 = true
        · rw [if_pos hb] at h
          rcases h4 : findSlashQnum l3 with _ | q <;> rw [h4] at h
          · cases h
          · obtain ⟨w, hw, hdis⟩ := takeSideLine_sound l sd l1 h1
            obtain ⟨sp, hsp1, hsp2⟩ := takeSpaces1_sound l1 l2 h2
            obtain ⟨wk, hwk, hkdis⟩ := takeKind_sound l2 kd l3 h3
            refine ⟨w, sp, l2, ?_, hdis, hsp2,
              ⟨wk, l3, hwk, hkdis, hb, findSlashQnum_sound l3 q h4⟩⟩
            rw [hw, hsp1]
        · rw [if_neg hb] at h
          cases h

theorem lineFromSide_complete (cnt : List Char) (b : Char) (lvl : Nat) (l : List Char)
    (h : SideTail l) : ∃ e, lineFromSide cnt b lvl l = some e := by
  obtain ⟨sd, sp, rest, rfl, hdis, hsp, kd, rest2, rfl, hkdis, hb, hsq⟩ := h
  rw [lineFromSide]
  obtain ⟨s, hside⟩ := takeSideLine_complete sd (sp ++ (kd ++ rest2)) hdis
  rw [hside]
  dsimp only
  have hkdhead : headNotP isSpaceC (kd ++ rest2) = true := by
    rcases hkdis with h' | h'
    · exact eqCI_head_not_space kd _ rest2 'b' "w".data h' rfl (by decide)
    · exact eqCI_head_not_space kd _ rest2 's' "r".data h' rfl (by decide)
  rw [takeSpaces1_complete sp _ hsp hkdhead]
  dsimp only
  obtain ⟨k, hkind⟩ := takeKind_complete kd rest2 hkdis
  rw [hkind]
  dsimp only
  rw [if_pos hb]
  obtain ⟨free, r2, rfl, hnn, hqt⟩ := hsq
  obtain ⟨q, hq⟩ := findSlashQnum_complete free r2 hnn hqt
  rw [hq]
  exact ⟨_, rfl⟩

theorem lineFromBlock_sound (cnt : List Char) (l : List Char) (e : Entry)
    (h : lineFromBlock cnt l = some e) :
    ∃ b sp2 rest, l = b :: (sp2 ++ rest) ∧ isAlphaC b = true ∧ Spaces1 sp2 ∧
      LevelTail rest := by
  rw [lineFromBlock.eq_def] at h
  cases l with
  | nil => cases h
  | cons b l1 =>
    dsimp only at h
    by_cases hab : isAlphaC b = true
    · rw [if_pos hab] at h
      rcases h2 : takeSpaces1 l1 with _ | l2 <;> rw [h2] at h
      · cases h
      · dsimp only at h
        rcases h3 : takeLitCI "l".data l2 with _ | l3 <;> rw [h3] at h
        · cases h
        · dsimp only at h
          rcases h4 : takeLevel l3 with _ | ⟨lvl, l4⟩ <;> rw [h4] at h
          · cases h
          · have hside := lineFromSide_sound cnt b lvl l4 e h
            obtain ⟨sp2, hsp1, hsp2⟩ := takeSpaces1_sound l1 l2 h2
            obtain ⟨w, hw, hci⟩ := takeLitCI_sound "l".data l2 l3 h3
            obtain ⟨lc, lcs, rfl, hlc, hlcs⟩ := eqCI_cons w 'l' [] hci
            have hnil : lcs = [] := by
              cases lcs with
              | nil => rfl
              | cons x xs => cases hlcs
            subst hnil
            obtain ⟨d, spl, hl3, hd, hlen, hspl⟩ := takeLevel_sound l3 lvl l4 h4
            refine ⟨b, sp2, l2, by rw [hsp1], hab, hsp2,
              ⟨lc, d, spl, l4, ?_, hlc, hd, hlen, hspl, hside⟩⟩
            rw [hw, hl3]
            rfl
    · rw [if_neg hab] at h
      cases h

theorem lineFromBlock_complete (cnt : List Char) (l : List Char)
    (h : ∃ b sp2 rest, l = b :: (sp2 ++ rest) ∧ isAlphaC b = true ∧ Spaces1 sp2 ∧
      LevelTail rest) :
    ∃ e, lineFromBlock cnt l = some e := by
  obtain ⟨b, sp2, rest, rfl, hab, hsp2, lc, lvl, spl, rest', hre, hlc, hlvl, hlen, hspl,
    hside⟩ := h
  subst hre
  rw [lineFromBlock.eq_def]
  dsimp only
  rw [if_pos hab]
  have hlhead : headNotP isSpaceC (lc :: (lvl ++ (spl ++ rest'))) = true := by
    show (!isSpaceC lc) = true
    rw [lower_not_space lc 'l' hlc (by decide)]
    rfl
  rw [takeSpaces1_complete sp2 _ hsp2 hlhead]
  dsimp only
  have hci : EqCI [lc] "l".data := by
    show lowerL [lc] = "l".data
    rw [lowerL, List.map_cons, List.map_nil, hlc]
  have hlit : takeLitCI "l".data (lc :: (lvl ++ (spl ++ rest'))) =
      some (lvl ++ (spl ++ rest')) :=
    takeLitCI_complete "l".data [lc] (lvl ++ (spl ++ rest')) hci
  rw [hlit]
  dsimp only
  have hresthead : headNotP isSpaceC rest' = true := by
    obtain ⟨sd, sp', rest'', hre2, hdis, -⟩ := hside
    subst hre2
    rcases hdis with h' | h' | h' | h'
    · exact eqCI_head_not_space sd _ _ 'n' "orth".data h' rfl (by decide)
    · exact eqCI_head_not_space sd _ _ 's' "outh".data h' rfl (by decide)
    · exact eqCI_head_not_space sd _ _ 'e' "ast".data h' rfl (by decide)
    · exact eqCI_head_not_space sd _ _ 'w' "est".data h' rfl (by decide)
  have hlv : takeLevel (lvl ++ (spl ++ rest')) = some (natOfDigits lvl, rest') :=
    takeLevel_complete lvl spl rest' hlvl hlen hspl hresthead
  rw [hlv]
  dsimp only
  exact lineFromSide_complete cnt b (natOfDigits lvl) rest' hside

theorem parse_line_sound (l : List Char) (e : Entry) (h : parse_line l = some e) :
    LineGrammar l := by
  rw [parse_line] at h
  obtain ⟨sp0, hl0, hsp0, -⟩ := dropSpaces_sound l
  rcases h1 : takeDigits1 (dropSpaces l) with _ | ⟨cnt, l1⟩ <;> rw [h1] at h
  · cases h
  · dsimp only at h
    obtain ⟨hdec1, hcnt, -⟩ := takeDigits1_sound _ cnt l1 h1
    rcases h2 : takeSpaces1 l1 with _ | l2 <;> rw [h2] at h
    · cases h
    · dsimp only at h
      obtain ⟨sp1, hdec2, hsp1⟩ := takeSpaces1_sound l1 l2 h2
      rcases h3 : takeLitCI "pictures".data l2 with _ | l3 <;> rw [h3] at h
      · cases h
      · dsimp only at h
        obtain ⟨pw, hdec3, hpw⟩ := takeLitCI_sound _ l2 l3 h3
        rcases h4 : takeChar '-' (dropSpaces l3) with _ | l4 <;> rw [h4] at h
        · cases h
        · dsimp only at h
          have hdec4 := takeChar_sound '-' (dropSpaces l3) l4 h4
          obtain ⟨sp2, hdec5, hsp2, -⟩ := dropSpaces_sound l3
          rcases h5 : takeLitCI "block".data (dropSpaces l4) with _ | l5 <;> rw [h5] at h
          · cases h
          · dsimp only at h
            obtain ⟨bw, hdec6, hbw⟩ := takeLitCI_sound _ _ l5 h5
            obtain ⟨sp3, hdec7, hsp3, -⟩ := dropSpaces_sound l4
            rcases h6 : takeSpaces1 l5 with _ | l6 <;> rw [h6] at h
            · cases h
            · dsimp only at h
              obtain ⟨sp4, hdec8, hsp4⟩ := takeSpaces1_sound l5 l6 h6
              obtain ⟨b, sp5, rest, hdec9, hab, hsp5, hlt⟩ := lineFromBlock_sound cnt l6 e h
              refine ⟨sp0, dropSpaces l, hl0, hsp0, cnt, sp1, l2, ?_, hcnt, hsp1,
                ⟨pw, sp2, sp3, dropSpaces l4, ?_, hpw, hsp2, hsp3,
                  ⟨bw, sp4, b, sp5, rest, ?_, hbw, hsp4, hab, hsp5, hlt⟩⟩⟩
              · rw [hdec1, hdec2]
              · rw [hdec3, hdec5, hdec4]
                nth_rewrite 1 [hdec7]
                rfl
              · rw [hdec6, hdec8, hdec9]

theorem parse_line_complete (l : List Char) (h : LineGrammar l) :
    ∃ e, parse_line l = some e := by
  obtain ⟨sp0, rest0, rfl, hsp0, cnt, sp1, rest, hre1, hcnt, hsp1, pw, sp2, sp3, rest',
    hre2, hpw, hsp2, hsp3, hbt⟩ := h
  subst hre1
  subst hre2
  obtain ⟨bw, sp4, b, sp5, r2, hre3, hbw, hsp4, hab, hsp5, hlt⟩ := hbt
  subst hre3
  rw [parse_line]
  rw [dropSpaces_append sp0 _ hsp0 (digits1_head_not_space cnt _ hcnt)]
  rw [takeDigits1_complete cnt _ hcnt (spaces1_head_not_digit sp1 _ hsp1)]
  dsimp only
  rw [takeSpaces1_complete sp1 _ hsp1
    (eqCI_head_not_space pw _ _ 'p' "ictures".data hpw rfl (by decide))]
  dsimp only
  rw [takeLitCI_complete "pictures".data pw _ hpw]
  dsimp only
  rw [dropSpaces_append sp2 _ hsp2 (by show (!isSpaceC '-') = true; decide)]
  rw [takeChar_complete '-' _]
  dsimp only
  rw [dropSpaces_append sp3 _ hsp3
    (eqCI_head_not_space bw _ _ 'b' "lock".data hbw rfl (by decide))]
  rw [takeLitCI_complete "block".data bw _ hbw]
  dsimp only
  have hbhead : headNotP isSpaceC (b :: (sp5 ++ r2)) = true := by
    show (!isSpaceC b) = true
    rw [alpha_not_space b hab]
    rfl
  rw [takeSpaces1_complete sp4 _ hsp4 hbhead]
  dsimp only
  exact lineFromBlock_complete cnt _ ⟨b, sp5, r2, rfl, hab, hsp5, hlt⟩

/-- The block-onwards part shared by both counterexample lines. -/
theorem blockTailExample : BlockTail "Block A L1 East BW x / 2".data :=
  ⟨"Block".data, [' '], 'A', [' '], "L1 East BW x / 2".data, by decide, by decide,
    by decide, by decide, by decide,
    ⟨'L', ['1'], [' '], "East BW x / 2".data, by decide, by decide, by decide, by decide,
      by decide,
      ⟨"East".data, [' '], "BW x / 2".data, by decide, Or.inr (Or.inr (Or.inl (by decide))),
        by decide,
        ⟨"BW".data, " x / 2".data, by decide, Or.inl (by decide), by decide,
          ⟨" x ".data, " 2".data, by decide, by decide,
            ⟨[' '], ['2'], [], by decide, by decide, by decide, by decide⟩⟩⟩⟩⟩⟩

/-- **C1 (counterexample).** The claim's grammar — matched anywhere in the
line, with the "-" after "pictures" optional — accepts these two lines,
yet the parser produces no `Entry` for either: `LINE_RE` requires the
dash (first line) and anchors the match at the start of the line
(second line), so "Entry iff the claimed grammar matches" is false. -/
theorem C1_claim_counterexample :
    LineGrammarClaim "5 pictures Block A L1 East BW x / 2".data ∧
      parse_line "5 pictures Block A L1 East BW x / 2".data = Option.none ∧
      LineGrammarClaim "x 5 pictures - Block A L1 East BW x / 2".data ∧
      parse_line "x 5 pictures - Block A L1 East BW x / 2".data = Option.none := by
  refine ⟨?_, by rfl, ?_, by rfl⟩
  · exact ⟨[], "5 pictures Block A L1 East BW x / 2".data, rfl,
      ⟨['5'], [' '], "pictures Block A L1 East BW x / 2".data, by decide, by decide,
        by decide,
        ⟨"pictures".data, [' '], "Block A L1 East BW x / 2".data, by decide, by decide,
          Or.inl (by decide), blockTailExample⟩⟩⟩
  · exact ⟨"x ".data, "5 pictures - Block A L1 East BW x / 2".data, by decide,
      ⟨['5'], [' '], "pictures - Block A L1 East BW x / 2".data, by decide, by decide,
        by decide,
        ⟨"pictures".data, " - ".data, "Block A L1 East BW x / 2".data, by decide, by decide,
          Or.inr ⟨[' '], [' '], by decide, by decide, by decide⟩, blockTailExample⟩⟩⟩

/-- **C1 (amended).** The parser produces an `Entry` for a line if and
only if the line matches, anchored at the start of the line after
optional leading whitespace, the grammar `<count> "pictures" "-" "Block"
<block> "L"<level> <side> <kind> <free text> "/" <qnum>`
case-insensitively, where the "-" after "pictures" is mandatory (with
optional whitespace around it).  At most one `Entry` per line and the
silent skip of non-matching lines are the `Option` result and the
`filterMap` in `parse_txt`. -/
theorem C1_parse_line_iff_grammar :
    ∀ l : List Char, (parse_line l).isSome = true ↔ LineGrammar l := by
  intro l
  constructor
  · intro h
    obtain ⟨e, he⟩ := Option.isSome_iff_exists.mp h
    exact parse_line_sound l e he
  · intro h
    obtain ⟨e, he⟩ := parse_line_complete l h
    rw [he]
    rfl

/-! ### The level-clause alternation on canonical labels, symbolically

`Block A <d1>-Level <d2> / <side> Elevation` for arbitrary 1–2-digit
numerals `d1`, `d2`: the ground-level alternative fails at every scan
position, the digits-dash-Level-digits alternative matches at the start
of `d1`, and the extracted level group is `d2`. -/

theorem digits1_head (d : List Char) (h : Digits1 d) :
    ∃ a d2, d = a :: d2 ∧ isDigitC a = true := by
  obtain ⟨c, cs, rfl⟩ := List.exists_cons_of_ne_nil h.2
  exact ⟨c, cs, rfl, ((allDigitB_cons_iff c cs).mp h.1).1⟩

theorem digit_ne_of (a c : Char) (ha : isDigitC a = true) (hc : isDigitC c = false) :
    a ≠ c := by
  intro he
  subst he
  rw [ha] at hc
  cases hc

theorem dropSpaces_head_not (x : Char) (rest : List Char) (h : isSpaceC x = false) :
    dropSpaces (x :: rest) = x :: rest := by
  rw [dropSpaces, spanC, h]
  rfl

theorem dropSpaces_skip (x : Char) (rest : List Char) (h : isSpaceC x = true) :
    dropSpaces (x :: rest) = dropSpaces rest := by
  rw [dropSpaces, dropSpaces, spanC, h]
  rfl

/-- The ground-level core fails right at the dash of `-Level` (the literal
after the dash is `Level`, not `Ground`). -/
theorem glCore_dashL (rest : List Char) : glCore ('-' :: 'L' :: rest) = Option.none := rfl

/-- The ground-level core fails on any input starting with a digit (the
dash is not reached). -/
theorem glCore_digit_head (x : Char) (rest : List Char) (h : isDigitC x = true) :
    glCore (x :: rest) = Option.none := by
  have h1 : dropSpaces (x :: rest) = x :: rest :=
    dropSpaces_head_not x rest (digit_not_space x h)
  have h2 : takeChar '-' (x :: rest) = Option.none := by
    rw [takeChar, if_neg (digit_ne_of x '-' h (by decide))]
  rw [glCore]
  dsimp only
  rw [h1, h2]

/-- Alternative 1 (`0{0,2}\s*-\s*Ground\s+Level\b`) fails on a 1–2-digit
numeral followed by `-L...`, whatever zeros the numeral contains and
however the `0{0,2}` quantifier splits it. -/
theorem zerosThenGl_canon (d1 rest : List Char) (hd : Digits1 d1) (hlen : d1.length ≤ 2) :
    zerosThenGl (d1 ++ ('-' :: 'L' :: rest)) = Option.none := by
  rcases d1 with _ | ⟨a, d1t⟩
  · exact absurd rfl hd.2
  rcases d1t with _ | ⟨b, d1tt⟩
  · have ha : isDigitC a = true := ((allDigitB_cons_iff a []).mp hd.1).1
    rw [List.cons_append, List.nil_append, zerosThenGl.eq_def]
    split
    · rename_i l2 heq
      injection heq with h1 h2
      injection h2 with h3 h4
      exact absurd h3 (by decide)
    · rename_i l1 heq
      injection heq with h1 h2
      subst h2
      rw [glCore_dashL, glCore_digit_head '0' ('-' :: 'L' :: rest) (by decide)]
      rfl
    · exact glCore_digit_head a ('-' :: 'L' :: rest) ha
  rcases d1tt with _ | ⟨c, d1ttt⟩
  · have ha : isDigitC a = true := ((allDigitB_cons_iff a [b]).mp hd.1).1
    have hb : isDigitC b = true :=
      ((allDigitB_cons_iff b []).mp ((allDigitB_cons_iff a [b]).mp hd.1).2).1
    rw [List.cons_append, List.cons_append, List.nil_append, zerosThenGl.eq_def]
    split
    · rename_i l2 heq
      injection heq with h1 h2
      injection h2 with h3 h4
      subst h4
      rw [glCore_dashL, glCore_digit_head '0' ('-' :: 'L' :: rest) (by decide),
        glCore_digit_head '0' ('0' :: '-' :: 'L' :: rest) (by decide)]
      rfl
    · rename_i l1 heq
      injection heq with h1 h2
      subst h2
      rw [glCore_digit_head b ('-' :: 'L' :: rest) hb,
        glCore_digit_head '0' (b :: '-' :: 'L' :: rest) (by decide)]
      rfl
    · exact glCore_digit_head a (b :: '-' :: 'L' :: rest) ha
  · simp only [List.length_cons] at hlen
    omega

/-- Alternative 2 (`\d{1,2}\s*-\s*Level\s+(?P<lvl2>\d{1,2})\b`) matches the
canonical `<d1>-Level <d2>` clause exactly, capturing `d2`. -/
theorem altLvl2_canon (d1 d2 tail : List Char) (hd1 : Digits1 d1) (hlen1 : d1.length ≤ 2)
    (hd2 : Digits1 d2) (hlen2 : d2.length ≤ 2) (ht2 : boundaryB tail = true)
    (ht3 : headNotP isDigitC tail = true) :
    altLvl2 (d1 ++ ('-' :: 'L' :: 'e' :: 'v' :: 'e' :: 'l' :: ' ' :: (d2 ++ tail))) =
      some (d2, tail) := by
  rw [altLvl2]
  rw [takeDigits1_complete d1 ('-' :: 'L' :: 'e' :: 'v' :: 'e' :: 'l' :: ' ' :: (d2 ++ tail))
    hd1 (by show (!isDigitC '-') = true; decide)]
  dsimp only
  rw [if_pos hlen1]
  show (match takeSpaces1 (' ' :: (d2 ++ tail)) with
        | Option.none => Option.none
        | some r5 => takeDigits12B r5) = some (d2, tail)
  rw [show takeSpaces1 (' ' :: (d2 ++ tail)) = some (d2 ++ tail) from
    takeSpaces1_complete [' '] (d2 ++ tail) (by decide) (digits1_head_not_space d2 tail hd2)]
  dsimp only
  rw [takeDigits12B, takeDigits1_complete d2 tail hd2 ht3]
  dsimp only
  rw [if_pos (show (decide (d2.length ≤ 2) && boundaryB tail) = true by
    rw [decide_eq_true hlen2, ht2]; rfl)]

/-- One step of the lazy scan, written out (the scan tries the clause at
the current position first, else consumes one non-newline character). -/
theorem lazyScan_cons (pc c : Char) (rest : List Char) :
    lazyScan pc (c :: rest) =
      match clauseThenTail pc (c :: rest) with
      | some r => some r
      | Option.none => if c = '\n' then Option.none else lazyScan c rest :=
  lazyScan.eq_2 pc c rest

/-- At the scan position on the space before `<d1>`, every alternative of
the level clause fails (each would have to start with a space or, after
skipping it, hit a digit where a dash or a letter is required). -/
theorem clause_space_none (a : Char) (Y : List Char) (ha : isDigitC a = true) :
    clauseThenTail 'A' (' ' :: a :: Y) = Option.none := by
  rw [clauseThenTail]
  rw [if_pos (by show (isWordC 'A' != isWordC ' ') = true; decide)]
  have hz : zerosThenGl (' ' :: a :: Y) = Option.none := by
    show glCore (' ' :: a :: Y) = Option.none
    have h1 : dropSpaces (' ' :: a :: Y) = a :: Y := by
      rw [dropSpaces_skip ' ' (a :: Y) (by decide),
        dropSpaces_head_not a Y (digit_not_space a ha)]
    have h2 : takeChar '-' (a :: Y) = Option.none := by
      rw [takeChar, if_neg (digit_ne_of a '-' ha (by decide))]
    rw [glCore]
    dsimp only
    rw [h1, h2]
  rw [hz]
  rw [show altLvl2 (' ' :: a :: Y) = Option.none from rfl]
  rw [show altLvl1 (' ' :: a :: Y) = Option.none from rfl]
  rw [show altLvl0 (' ' :: a :: Y) = Option.none from rfl]
  rfl

/-- At the scan position on `<d1>` itself, the clause matches via
alternative 2 with level group `d2` and the tail yields the side. -/
theorem clause_canon (d1 d2 tail : List Char) (sd : Side)
    (hd1 : Digits1 d1) (hlen1 : d1.length ≤ 2) (hd2 : Digits1 d2) (hlen2 : d2.length ≤ 2)
    (ht1 : tailSide tail = some sd) (ht2 : boundaryB tail = true)
    (ht3 : headNotP isDigitC tail = true) :
    clauseThenTail ' '
        (d1 ++ ('-' :: 'L' :: 'e' :: 'v' :: 'e' :: 'l' :: ' ' :: (d2 ++ tail))) =
      some (LevelG.lvl2 d2, sd) := by
  obtain ⟨a, d1t, rfl, ha⟩ := digits1_head d1 hd1
  have hb : boundaryAt ' '
      ((a :: d1t) ++ ('-' :: 'L' :: 'e' :: 'v' :: 'e' :: 'l' :: ' ' :: (d2 ++ tail))) = true := by
    show (isWordC ' ' != isWordC a) = true
    rw [digit_word a ha]
    decide
  rw [clauseThenTail, if_pos hb]
  rw [zerosThenGl_canon (a :: d1t) ('e' :: 'v' :: 'e' :: 'l' :: ' ' :: (d2 ++ tail)) hd1 hlen1]
  rw [altLvl2_canon (a :: d1t) d2 tail hd1 hlen1 hd2 hlen2 ht2 ht3]
  simp only [Option.none_bind, Option.none_orElse, Option.some_bind]
  rw [ht1]
  simp only [Option.map_some', Option.some_orElse]

/-- The lazy scan starting just after the block letter finds the level
clause at the start of `<d1>` (one space is consumed first), so the
earliest matching scan position wins. -/
theorem lazyScan_canon (d1 d2 tail : List Char) (sd : Side)
    (hd1 : Digits1 d1) (hlen1 : d1.length ≤ 2) (hd2 : Digits1 d2) (hlen2 : d2.length ≤ 2)
    (ht1 : tailSide tail = some sd) (ht2 : boundaryB tail = true)
    (ht3 : headNotP isDigitC tail = true) :
    lazyScan 'A'
        (' ' :: (d1 ++ ('-' :: 'L' :: 'e' :: 'v' :: 'e' :: 'l' :: ' ' :: (d2 ++ tail)))) =
      some (LevelG.lvl2 d2, sd) := by
  obtain ⟨a, d1t, rfl, ha⟩ := digits1_head d1 hd1
  rw [List.cons_append, lazyScan_cons]
  rw [clause_space_none a (d1t ++ ('-' :: 'L' :: 'e' :: 'v' :: 'e' :: 'l' :: ' ' :: (d2 ++ tail))) ha]
  dsimp only
  rw [if_neg (by decide : ¬(' ' = '\n'))]
  rw [lazyScan_cons]
  rw [show (a :: (d1t ++ ('-' :: 'L' :: 'e' :: 'v' :: 'e' :: 'l' :: ' ' :: (d2 ++ tail)))) =
    (a :: d1t) ++ ('-' :: 'L' :: 'e' :: 'v' :: 'e' :: 'l' :: ' ' :: (d2 ++ tail)) from rfl]
  rw [clause_canon (a :: d1t) d2 tail sd hd1 hlen1 hd2 hlen2 ht1 ht2 ht3]

/-- `parse_loc` on a canonical level label: block `A`, level `d2`, and the
given side, for all 1–2-digit numerals `d1`, `d2` and any side word whose
tail matches. -/
theorem parse_locT_level_canon (d1 d2 : List Char) (sw : String) (sd : Side)
    (hd1 : Digits1 d1) (hlen1 : d1.length ≤ 2) (hd2 : Digits1 d2) (hlen2 : d2.length ≤ 2)
    (ht1 : tailSide (' ' :: '/' :: ' ' :: (sw.data ++ " Elevation".data)) = some sd) :
    parse_locT (CellValue.str (mkLevelLabel d1 d2 sw)) = some ('A', natOfDigits d2, sd) := by
  have ht2 : boundaryB (' ' :: '/' :: ' ' :: (sw.data ++ " Elevation".data)) = true := by
    show (!isWordC ' ') = true
    decide
  have ht3 : headNotP isDigitC (' ' :: '/' :: ' ' :: (sw.data ++ " Elevation".data)) = true := by
    show (!isDigitC ' ') = true
    decide
  have hscan := lazyScan_canon d1 d2 (' ' :: '/' :: ' ' :: (sw.data ++ " Elevation".data)) sd
    hd1 hlen1 hd2 hlen2 ht1 ht2 ht3
  have hblock : blockAt ('B' :: 'l' :: 'o' :: 'c' :: 'k' :: ' ' :: 'A' :: ' ' ::
      (d1 ++ ('-' :: 'L' :: 'e' :: 'v' :: 'e' :: 'l' :: ' ' ::
        (d2 ++ (' ' :: '/' :: ' ' :: (sw.data ++ " Elevation".data)))))) =
      some (mkGroups 'A' (LevelG.lvl2 d2) sd) := by
    rw [blockAt]
    rw [show takeLitCI "block".data ('B' :: 'l' :: 'o' :: 'c' :: 'k' :: ' ' :: 'A' :: ' ' ::
        (d1 ++ ('-' :: 'L' :: 'e' :: 'v' :: 'e' :: 'l' :: ' ' ::
          (d2 ++ (' ' :: '/' :: ' ' :: (sw.data ++ " Elevation".data)))))) =
      some (' ' :: 'A' :: ' ' :: (d1 ++ ('-' :: 'L' :: 'e' :: 'v' :: 'e' :: 'l' :: ' ' ::
        (d2 ++ (' ' :: '/' :: ' ' :: (sw.data ++ " Elevation".data)))))) from
      takeLitCI_complete "block".data ['B', 'l', 'o', 'c', 'k']
        (' ' :: 'A' :: ' ' :: (d1 ++ ('-' :: 'L' :: 'e' :: 'v' :: 'e' :: 'l' :: ' ' ::
          (d2 ++ (' ' :: '/' :: ' ' :: (sw.data ++ " Elevation".data)))))) (by decide)]
    dsimp only
    rw [show takeSpaces1 (' ' :: 'A' :: ' ' :: (d1 ++ ('-' :: 'L' :: 'e' :: 'v' :: 'e' :: 'l' ::
        ' ' :: (d2 ++ (' ' :: '/' :: ' ' :: (sw.data ++ " Elevation".data)))))) =
      some ('A' :: ' ' :: (d1 ++ ('-' :: 'L' :: 'e' :: 'v' :: 'e' :: 'l' :: ' ' ::
        (d2 ++ (' ' :: '/' :: ' ' :: (sw.data ++ " Elevation".data)))))) from
      takeSpaces1_complete [' '] ('A' :: ' ' :: (d1 ++ ('-' :: 'L' :: 'e' :: 'v' :: 'e' :: 'l' ::
        ' ' :: (d2 ++ (' ' :: '/' :: ' ' :: (sw.data ++ " Elevation".data)))))) (by decide)
        (by show (!isSpaceC 'A') = true; decide)]
    dsimp only
    rw [if_pos (by show (isAlphaC 'A' && !isWordC ' ') = true; decide)]
    rw [hscan]
    rfl
  have hsearch : locSearch ('B' :: 'l' :: 'o' :: 'c' :: 'k' :: ' ' :: 'A' :: ' ' ::
      (d1 ++ ('-' :: 'L' :: 'e' :: 'v' :: 'e' :: 'l' :: ' ' ::
        (d2 ++ (' ' :: '/' :: ' ' :: (sw.data ++ " Elevation".data)))))) =
      some (mkGroups 'A' (LevelG.lvl2 d2) sd) := by
    show (blockAt ('B' :: 'l' :: 'o' :: 'c' :: 'k' :: ' ' :: 'A' :: ' ' ::
        (d1 ++ ('-' :: 'L' :: 'e' :: 'v' :: 'e' :: 'l' :: ' ' ::
          (d2 ++ (' ' :: '/' :: ' ' :: (sw.data ++ " Elevation".data)))))) <|>
      locSearch ('l' :: 'o' :: 'c' :: 'k' :: ' ' :: 'A' :: ' ' ::
        (d1 ++ ('-' :: 'L' :: 'e' :: 'v' :: 'e' :: 'l' :: ' ' ::
          (d2 ++ (' ' :: '/' :: ' ' :: (sw.data ++ " Elevation".data))))))) =
      some (mkGroups 'A' (LevelG.lvl2 d2) sd)
    rw [hblock]
    rfl
  have hloc : parse_loc (CellValue.str (mkLevelLabel d1 d2 sw)) =
      Except.ok (some ('A', natOfDigits d2, sd)) := by
    show (match locSearch ('B' :: 'l' :: 'o' :: 'c' :: 'k' :: ' ' :: 'A' :: ' ' ::
        (d1 ++ ('-' :: 'L' :: 'e' :: 'v' :: 'e' :: 'l' :: ' ' ::
          (d2 ++ (' ' :: '/' :: ' ' :: (sw.data ++ " Elevation".data)))))) with
      | Option.none => Except.ok Option.none
      | some g =>
        match g.gl with
        | some _ => Except.ok (some (upperC g.block, 0, g.side))
        | Option.none =>
          match g.lvl2 <|> g.lvl1 <|> g.lvl0 with
          | some ds => Except.ok (some (upperC g.block, natOfDigits ds, g.side))
          | Option.none => Except.error ()) =
      Except.ok (some ('A', natOfDigits d2, sd))
    rw [hsearch]
    rfl
  show (match parse_loc (CellValue.str (mkLevelLabel d1 d2 sw)) with
        | Except.ok r => r
        | Except.error _ => Option.none) = some ('A', natOfDigits d2, sd)
  rw [hloc]

/-- **C4 (amended).** The level clause is resolved by trying the four
alternatives in priority order at each scan position, the earliest
matching position winning.  Consequently, for every canonical label whose
first matching clause is the digits-dash-Level-digits alternative —
`Block A <d1>-Level <d2> / <side> Elevation` for arbitrary 1–2-digit
numerals `d1`, `d2` — the extracted level is the second numeral `d2`
(never `d1`), for every one of the four side words; and a matching
ground-level clause (zero to two zeros before `-Ground Level`) yields
level 0 on every side. -/
theorem C4_level_clause_priority :
    (∀ d1 d2 : List Char, Digits1 d1 → d1.length ≤ 2 → Digits1 d2 → d2.length ≤ 2 →
      ∀ p ∈ sideWordsLoc,
        parse_locT (CellValue.str (mkLevelLabel d1 d2 p.1)) =
          some ('A', natOfDigits d2, p.2)) ∧
    (∀ z ∈ [([] : List Char), ['0'], ['0', '0']], ∀ p ∈ sideWordsLoc,
      parse_locT (CellValue.str (mkGroundLabel z p.1)) = some ('A', 0, p.2)) := by
  constructor
  · intro d1 d2 hd1 hlen1 hd2 hlen2 p hp
    fin_cases hp
    · exact parse_locT_level_canon d1 d2 "East" Side.east hd1 hlen1 hd2 hlen2 (by decide)
    · exact parse_locT_level_canon d1 d2 "West" Side.west hd1 hlen1 hd2 hlen2 (by decide)
    · exact parse_locT_level_canon d1 d2 "North" Side.north hd1 hlen1 hd2 hlen2 (by decide)
    · exact parse_locT_level_canon d1 d2 "South" Side.south hd1 hlen1 hd2 hlen2 (by decide)
  · decide

/-- **C4 (witness).** The amended theorem instantiated at `3-Level 4`
(level 4, not 3) on the east side, and at `0-Ground Level` (level 0). -/
theorem C4_level_clause_priority_witness :
    parse_locT (CellValue.str (mkLevelLabel ['3'] ['4'] "East")) =
        some ('A', natOfDigits ['4'], Side.east) ∧
      parse_locT (CellValue.str (mkGroundLabel ['0'] "East")) = some ('A', 0, Side.east) :=
  ⟨C4_level_clause_priority.1 ['3'] ['4'] (by decide) (by decide) (by decide) (by decide)
      ("East", Side.east) (by decide),
   C4_level_clause_priority.2 ['0'] (by decide) ("East", Side.east) (by decide)⟩

end PhotoReport
